import Mathlib

/-!
# tt: a time-string converter (`src/tt.go`)

A shallow embedding of the command line tool `tt` and of the parts of the Go
standard library its `main` calls, followed by theorems about it.

Go strings are byte sequences: `len`, indexing and slicing count bytes.  They
are embedded as lists of byte values.  Go's `int64`/`uint64` arithmetic is
embedded over `Int`/`Nat` with explicit wrap-around.
-/

set_option autoImplicit false

namespace TT

/-! ## Strings -/

/-- A Go string: its bytes, each given by its numeric value. -/
abbrev GoString := List Nat

/-- UTF-8 encoding of one code point (Go source text is UTF-8). -/
def utf8EncodeChar (c : Char) : List Nat :=
  let v := c.toNat
  if v ≤ 0x7f then [v]
  else if v ≤ 0x7ff then [0xc0 + v / 64, 0x80 + v % 64]
  else if v ≤ 0xffff then [0xe0 + v / 4096, 0x80 + v / 64 % 64, 0x80 + v % 64]
  else [0xf0 + v / 262144, 0x80 + v / 4096 % 64, 0x80 + v / 64 % 64, 0x80 + v % 64]

/-- The Go string written by a string literal. -/
def str (s : String) : GoString := s.data.flatMap utf8EncodeChar

/-- Go's `strings.Join`. -/
def Join : List GoString → GoString → GoString
  | [], _ => []
  | [a], _ => a
  | a :: b :: rest, sep => a ++ sep ++ Join (b :: rest) sep

/-- Go's `sort.Strings`: sorts into increasing bytewise lexicographic order.
The library's algorithm is embedded as an insertion sort. -/
def sortStrings (l : List GoString) : List GoString :=
  List.insertionSort (fun a b => a ≤ b) l

/-! ## The layout registry (`formats`, tt.go lines 24-42) -/

/-- The entries of the map literal `formats`, in source order, with the
`time` package's layout constants written out. -/
def formatsEntries : List (GoString × GoString) :=
  [ (str "TIMESTAMP", str "TIMESTAMP"),
    (str "TIMESTAMPNANO", str "TIMESTAMPNANO"),
    (str "ANSIC", str "Mon Jan _2 15:04:05 2006"),
    (str "UnixDate", str "Mon Jan _2 15:04:05 MST 2006"),
    (str "RubyDate", str "Mon Jan 02 15:04:05 -0700 2006"),
    (str "RFC822", str "02 Jan 06 15:04 MST"),
    (str "RFC822Z", str "02 Jan 06 15:04 -0700"),
    (str "RFC850", str "Monday, 02-Jan-06 15:04:05 MST"),
    (str "RFC1123", str "Mon, 02 Jan 2006 15:04:05 MST"),
    (str "RFC1123Z", str "Mon, 02 Jan 2006 15:04:05 -0700"),
    (str "RFC3339", str "2006-01-02T15:04:05Z07:00"),
    (str "RFC3339Nano", str "2006-01-02T15:04:05.999999999Z07:00"),
    (str "Kitchen", str "3:04PM"),
    (str "Stamp", str "Jan _2 15:04:05"),
    (str "StampMilli", str "Jan _2 15:04:05.000"),
    (str "StampMicro", str "Jan _2 15:04:05.000000"),
    (str "StampNano", str "Jan _2 15:04:05.000000000") ]

/-- The keys of `formats`. -/
def formatsKeys : List GoString := formatsEntries.map Prod.fst

/-- Map indexing `formats[k]`: the stored value, or the zero value `""` when
`k` is not a key. -/
def formats (k : GoString) : GoString :=
  match formatsEntries.lookup k with
  | some v => v
  | none => []

/-- Layout name resolution, tt.go lines 65-70:
`if formats[*from] != "" { *from = formats[*from] }`. -/
def resolveLayout (s : GoString) : GoString :=
  if formats s ≠ [] then formats s else s

/-- The fixed part of the help text (tt.go lines 52-54). -/
def helpPrefix : GoString :=
  str "To specify an `from` or `to` pattern, you can use one of the given predefined formats or " ++
  str "define an example using the reference date: 'Mon Jan 2 15:04:05 MST 2006'. See https://golang.org/src/time/format.go#L61 " ++
  str "for details. The predefined patterns are: "

/-- The help text built at tt.go lines 47-54.  `ks` is the order in which
`for k := range formats` visits the keys (unspecified in Go). -/
def helpText (ks : List GoString) : GoString :=
  helpPrefix ++ Join (sortStrings ks) (str ", ")

/-! ## `strconv` (Go standard library), base 10 and bit size 64 -/

/-- The two error kinds of `strconv.NumError`. -/
inductive NumError where
  | ErrSyntax
  | ErrRange
  deriving DecidableEq, Repr

/-- The constant `1<<64 - 1`. -/
def maxUint64 : Nat := 18446744073709551615

/-- Helper `lower(c)` of strconv: `c | ('x' - 'X')`. -/
def lower (c : Nat) : Nat := c ||| 32

/-- The digit loop of `strconv.ParseUint(s, 10, 64)`, started with the
accumulator `n`.  Returns the pair `(value, err)` the library returns. -/
def parseUintLoop : GoString → Nat → Nat × Option NumError
  | [], n => (n, none)
  | c :: cs, n =>
    let d : Option Nat :=
      if 48 ≤ c ∧ c ≤ 57 then some (c - 48)
      else if 97 ≤ lower c ∧ lower c ≤ 122 then some (lower c - 97 + 10)
      else none
    match d with
    | none => (0, some NumError.ErrSyntax)
    | some d =>
      if d ≥ 10 then (0, some NumError.ErrSyntax)
      else if n ≥ maxUint64 / 10 + 1 then (maxUint64, some NumError.ErrRange)
      else
        let n10 := (n * 10) % 2 ^ 64
        let n1 := (n10 + d) % 2 ^ 64
        if n1 < n10 ∨ n1 > maxUint64 then (maxUint64, some NumError.ErrRange)
        else parseUintLoop cs n1

/-- Go's `strconv.ParseUint(s, 10, 64)`. -/
def ParseUint (s : GoString) : Nat × Option NumError :=
  if s = [] then (0, some NumError.ErrSyntax) else parseUintLoop s 0

/-- Go's `strconv.ParseInt(s, 10, 64)`: the pair `(i, err)`. -/
def ParseInt (s : GoString) : Int × Option NumError :=
  match s with
  | [] => (0, some NumError.ErrSyntax)
  | c :: rest =>
    let neg : Bool := decide (c = 45)
    let s1 := if c = 43 then rest else if c = 45 then rest else s
    let r := ParseUint s1
    if r.2 = some NumError.ErrSyntax then (0, r.2)
    else if ¬ neg ∧ r.1 ≥ 2 ^ 63 then (2 ^ 63 - 1, some NumError.ErrRange)
    else if neg ∧ r.1 > 2 ^ 63 then (-(2 ^ 63), some NumError.ErrRange)
    else (if neg then -(r.1 : Int) else (r.1 : Int), none)

/-- The digit loop of `formatBits` for base 10, writing digits right to left
in front of `a`; the first argument bounds the digits by the size of the
library's buffer. -/
def formatBitsLoop : Nat → Nat → GoString → GoString
  | 0, _, a => a
  | fuel + 1, u, a =>
    if u ≥ 10 then formatBitsLoop fuel (u / 10) ((48 + u % 10) :: a)
    else (48 + u) :: a

/-- Go's `strconv.FormatInt(i, 10)` for an `int64` value `i`: `formatBits`
on `uint64(i)`, negated when `i < 0`, with a leading `-` then. -/
def FormatInt (i : Int) : GoString :=
  let neg : Bool := decide (i < 0)
  let u : Nat := (i % 2 ^ 64).toNat
  let u := if neg then (2 ^ 64 - u) % 2 ^ 64 else u
  let a := formatBitsLoop 65 u []
  if neg then 45 :: a else a

/-! ## Slicing -/

/-- The slice expression `s[lo:hi]` on a string: `none` is the run-time panic
"slice bounds out of range". -/
def slice (s : GoString) (lo hi : Int) : Option GoString :=
  if 0 ≤ lo ∧ lo ≤ hi ∧ hi ≤ (s.length : Int) then
    some ((s.take hi.toNat).drop lo.toNat)
  else none

/-! ## `time` (Go standard library) -/

/-- A `*time.Location` that is not nil. -/
inductive Location where
  | UTC
  | Local
  | zone (name : GoString)
  deriving DecidableEq, Repr

/-- A `time.Time`: seconds since January 1, year 1 (an `int64`), nanoseconds
within the second, and the location used for display. -/
structure Time where
  ext : Int
  nsec : Int
  loc : Location
  deriving DecidableEq, Repr

/-- Conversion of an integer to `int64` by two's complement wrap-around. -/
def wrap64 (x : Int) : Int := (x + 2 ^ 63) % 2 ^ 64 - 2 ^ 63

/-- The constant `unixToInternal`: seconds from year 1 to 1970. -/
def unixToInternal : Int := 62135596800

/-- Go's `time.Unix(sec, nsec)`. -/
def Unix (sec nsec : Int) : Time :=
  let p : Int × Int :=
    if nsec < 0 ∨ nsec ≥ 1000000000 then
      let n := Int.tdiv nsec 1000000000
      let sec1 := wrap64 (sec + n)
      let nsec1 := wrap64 (nsec - wrap64 (n * 1000000000))
      if nsec1 < 0 then (wrap64 (sec1 - 1), wrap64 (nsec1 + 1000000000))
      else (sec1, nsec1)
    else (sec, nsec)
  { ext := wrap64 (p.1 + unixToInternal), nsec := p.2, loc := Location.Local }

/-- Go's `Time.Unix()`: seconds since 1970. -/
def Time.Unix (t : Time) : Int := wrap64 (t.ext - unixToInternal)

/-- Go's `Time.UnixNano()`: `(t.sec() + internalToUnix)*1e9 + int64(t.nsec())`
in `int64` arithmetic. -/
def Time.UnixNano (t : Time) : Int :=
  wrap64 (wrap64 ((wrap64 (t.ext - unixToInternal)) * 1000000000) + t.nsec)

/-- Go's `Time.In(loc)`: same instant, displayed in `loc`. -/
def Time.In (t : Time) (l : Location) : Time := { t with loc := l }

/-- Go's `time.LoadLocation`; `none` is a non-nil error.  `zoneinfo` is the
lookup in the time zone database, used for every name other than `""`,
`"UTC"` and `"Local"`. -/
def LoadLocation (zoneinfo : GoString → Option Location) (name : GoString) :
    Option Location :=
  if name = [] ∨ name = str "UTC" then some Location.UTC
  else if name = str "Local" then some Location.Local
  else zoneinfo name

/-! ## The environment of a run -/

/-- What a run of the program takes from outside: the time zone database,
the clock (`now i` is what `time.Now()` returns in iteration `i` of the
loop), the layout-driven `time.ParseInLocation` (`none` is a non-nil error)
and `Time.Format`, and the behaviour of standard output: `write out p` is
the pair `(n, failed)` of the operating system's write of the bytes `p` to
standard output when `out` has been written before. -/
structure Env where
  zoneinfo : GoString → Option Location
  now : Nat → Time
  ParseInLocation : GoString → GoString → Location → Option Time
  Format : Time → GoString → GoString
  write : GoString → GoString → Nat × Bool

/-- Standard output accepts every write in full. -/
def Env.Reliable (env : Env) : Prop :=
  ∀ out p : GoString, env.write out p = (p.length, false)

/-! ## `bufio.Writer` (Go standard library) over standard output -/

/-- The constant `defaultBufSize`. -/
def defaultBufSize : Nat := 4096

/-- A `bufio.Writer` on `os.Stdout`: `wr` is what standard output has
received, `buf` the buffered bytes `b.buf[0:b.n]`, `err` whether `b.err` is
non-nil. -/
structure Writer where
  wr : GoString
  buf : GoString
  err : Bool
  deriving DecidableEq, Repr

/-- The call `bufio.NewWriter(os.Stdout)`. -/
def NewWriter : Writer := { wr := [], buf := [], err := false }

/-- Method `Available`: unused bytes in the buffer. -/
def Writer.Available (b : Writer) : Nat := defaultBufSize - b.buf.length

/-- Go's `os.Stdout.Write(p)`, which is also what `os.Stdout.WriteString`
does, when `out` has been written before: the number of bytes written and
whether the returned error is non-nil.  A write of fewer than `len(p)` bytes
is reported as an error (`io.ErrShortWrite`). -/
def stdoutWrite (env : Env) (out p : GoString) : Nat × Bool :=
  let r := env.write out p
  let n := min r.1 p.length
  (n, r.2 || decide (n ≠ p.length))

/-- Method `Flush`; the Boolean is whether the returned error is non-nil.
A failed or short write keeps the unwritten bytes and records the error. -/
def Writer.Flush (env : Env) (b : Writer) : Writer × Bool :=
  if b.err then (b, true)
  else if b.buf.length = 0 then (b, false)
  else
    let r := stdoutWrite env b.wr b.buf
    let n := r.1
    if r.2 ∨ n < b.buf.length then
      ({ wr := b.wr ++ b.buf.take n, buf := b.buf.drop n, err := true }, true)
    else ({ wr := b.wr ++ b.buf.take n, buf := [], err := false }, false)

/-- The loop of method `WriteString`,
`for len(s) > b.Available() && b.err == nil`.  With an empty buffer the
string is handed to `os.Stdout.WriteString` directly (`os.Stdout` is an
`io.StringWriter`); otherwise the buffer is filled from the string and
flushed.  The first argument bounds the number of iterations. -/
def writeStringLoop (env : Env) : Nat → GoString → Writer → GoString × Writer
  | 0, s, b => (s, b)
  | fuel + 1, s, b =>
    if s.length > b.Available ∧ b.err = false then
      if b.buf.length = 0 then
        let r := stdoutWrite env b.wr s
        writeStringLoop env fuel (s.drop r.1)
          { wr := b.wr ++ s.take r.1, buf := b.buf, err := r.2 }
      else
        let n := min s.length b.Available
        let b1 : Writer := { b with buf := b.buf ++ s.take n }
        writeStringLoop env fuel (s.drop n) (b1.Flush env).1
    else (s, b)

/-- Method `WriteString`; the Boolean is whether the returned error is
non-nil.  What is left of the string when the loop ends is copied into the
buffer. -/
def Writer.WriteString (env : Env) (b : Writer) (s : GoString) : Writer × Bool :=
  let r := writeStringLoop env (s.length + 1) s b
  if r.2.err then (r.2, true)
  else ({ r.2 with buf := r.2.buf ++ r.1.take (min r.1.length r.2.Available) }, false)

/-! ## The program (`main`, tt.go lines 45-124) -/

/-- The values of the command line flags and arguments after
`kingpin.Parse()`: `fromFlag` is `*from` and `toFlag` is `*to`. -/
structure Args where
  fromFlag : GoString
  toFlag : GoString
  toTimeZone : GoString
  fromTimeZone : GoString
  toConvert : List GoString

/-- The calls of `log.Fatalf` in the program, by their message. -/
inductive Fatal where
  | loadingTimezone
  | parsingTimestamp10
  | parsingTimestamp19
  | parsingTime
  | writingOutput
  deriving DecidableEq, Repr

/-- How a computation of the program ends: with a value, in `log.Fatalf`
(which exits the process at once, without running deferred calls), or in a
run-time panic. -/
inductive Outcome (α : Type) where
  | ok (a : α)
  | fatal (f : Fatal)
  | panic
  deriving DecidableEq, Repr

/-- How the process ends. -/
inductive Exit where
  | ok
  | fatal (f : Fatal)
  | panic
  deriving DecidableEq, Repr

/-- What a run leaves behind: the bytes standard output received and how
the process ended. -/
structure Result where
  stdout : GoString
  exit : Exit
  deriving DecidableEq, Repr

/-- Function `parseTimeZome` (tt.go lines 118-124). -/
def parseTimeZome (env : Env) (tzString : GoString) : Outcome Location :=
  match LoadLocation env.zoneinfo tzString with
  | some l => Outcome.ok l
  | none => Outcome.fatal Fatal.loadingTimezone

/-- The state of `main` when the loop starts: the resolved layouts `*from`
and `*to`, and the locations; `toTZ` is `none` (nil) exactly when
`*toTimeZone == ""`. -/
structure Config where
  fromLayout : GoString
  toLayout : GoString
  fromTZ : Location
  toTZ : Option Location

/-- Lines 72-99 of the loop body: the instant for one argument, in iteration
`i`. -/
def parseDate (env : Env) (c : Config) (i : Nat) (dateString : GoString) :
    Outcome Time :=
  if dateString = str "now" then Outcome.ok (env.now i)
  else if c.fromLayout = str "TIMESTAMP" then
    match ParseInt dateString with
    | (seconds, none) => Outcome.ok (Unix seconds 0)
    | (_, some _) => Outcome.fatal Fatal.parsingTimestamp10
  else if c.fromLayout = str "TIMESTAMPNANO" then
    match slice dateString ((dateString.length : Int) - 9) dateString.length with
    | none => Outcome.panic
    | some lo =>
      match ParseInt lo with
      | (_, some _) => Outcome.fatal Fatal.parsingTimestamp19
      | (nanos, none) =>
        match slice dateString 0 ((dateString.length : Int) - 9) with
        | none => Outcome.panic
        | some hi =>
          match ParseInt hi with
          | (_, some _) => Outcome.fatal Fatal.parsingTimestamp19
          | (seconds, none) => Outcome.ok (Unix seconds nanos)
  else
    match env.ParseInLocation c.fromLayout dateString c.fromTZ with
    | some date => Outcome.ok date
    | none => Outcome.fatal Fatal.parsingTime

/-- Lines 100-110 of the loop body: the text handed to `WriteString`. -/
def formatDate (env : Env) (c : Config) (date : Time) : GoString :=
  let date := match c.toTZ with
    | some l => date.In l
    | none => date
  if c.toLayout = str "TIMESTAMP" then FormatInt date.Unix
  else if c.toLayout = str "TIMESTAMPNANO" then FormatInt date.UnixNano
  else env.Format date c.toLayout

/-- The conversion of one argument (lines 72-110): the formatted text, or
the way the process ends. -/
def convert (env : Env) (c : Config) (i : Nat) (dateString : GoString) :
    Outcome GoString :=
  match parseDate env c i dateString with
  | Outcome.ok date => Outcome.ok (formatDate env c date)
  | Outcome.fatal f => Outcome.fatal f
  | Outcome.panic => Outcome.panic

/-- The loop `for _, dateString := range *toConvert` (lines 71-115), from
iteration `i` on, with the writer `b`. -/
def convertLoop (env : Env) (c : Config) : Nat → List GoString → Writer → Writer × Exit
  | _, [], b => (b, Exit.ok)
  | i, dateString :: rest, b =>
    match convert env c i dateString with
    | Outcome.fatal f => (b, Exit.fatal f)
    | Outcome.panic => (b, Exit.panic)
    | Outcome.ok line =>
      let r := b.WriteString env line
      if r.2 then (r.1, Exit.fatal Fatal.writingOutput)
      else convertLoop env c (i + 1) rest (r.1.WriteString env (str "\n")).1

/-- How the process ends after the loop: `log.Fatalf` exits without running
the deferred `lineWriter.Flush()`; a return from `main` and a panic run it. -/
def finish (env : Env) (r : Writer × Exit) : Result :=
  match r.2 with
  | Exit.fatal f => { stdout := r.1.wr, exit := Exit.fatal f }
  | e => { stdout := (r.1.Flush env).1.wr, exit := e }

/-- Function `main` from `kingpin.Parse()` on (lines 55-116). -/
def main (env : Env) (a : Args) : Result :=
  let lineWriter := NewWriter
  let toTZ : Outcome (Option Location) :=
    if a.toTimeZone ≠ [] then
      match parseTimeZome env a.toTimeZone with
      | Outcome.ok l => Outcome.ok (some l)
      | Outcome.fatal f => Outcome.fatal f
      | Outcome.panic => Outcome.panic
    else Outcome.ok none
  match toTZ with
  | Outcome.fatal f => finish env (lineWriter, Exit.fatal f)
  | Outcome.panic => finish env (lineWriter, Exit.panic)
  | Outcome.ok toTZ =>
    match parseTimeZome env a.fromTimeZone with
    | Outcome.fatal f => finish env (lineWriter, Exit.fatal f)
    | Outcome.panic => finish env (lineWriter, Exit.panic)
    | Outcome.ok fromTZ =>
      let c : Config :=
        { fromLayout := resolveLayout a.fromFlag, toLayout := resolveLayout a.toFlag,
          fromTZ := fromTZ, toTZ := toTZ }
      finish env (convertLoop env c 0 a.toConvert lineWriter)

/-! ## Notions used to state the properties -/

/-- Every byte of `s` is an ASCII decimal digit. -/
def IsDigits (s : GoString) : Prop := ∀ c ∈ s, 48 ≤ c ∧ c ≤ 57

instance (s : GoString) : Decidable (IsDigits s) := by
  unfold IsDigits; infer_instance

/-- The number a string of decimal digits denotes. -/
def digitsValue (s : GoString) : Nat := s.foldl (fun n c => n * 10 + (c - 48)) 0

/-- The decimal numeral of a natural number without padding: its base-10
digits, most significant first, as ASCII. -/
def decimal (u : Nat) : GoString :=
  if u = 0 then [48] else (Nat.digits 10 u).reverse.map (fun d => 48 + d)

/-- The decimal numeral of an integer without padding: a minus sign for a
negative number, then the numeral of its absolute value. -/
def decimalInt (i : Int) : GoString :=
  if i < 0 then 45 :: decimal i.natAbs else decimal i.natAbs

/-- A canonical integer numeral: an optional minus sign followed by at least
one decimal digit, with no plus sign and no leading zero; the numeral of
zero is `0`. -/
def IsCanonicalInt (s : GoString) : Prop :=
  let t := if s.head? = some 45 then s.tail else s
  t ≠ [] ∧ IsDigits t ∧ (t.head? = some 48 → s = [48])

instance (s : GoString) : Decidable (IsCanonicalInt s) := by
  unfold IsCanonicalInt; infer_instance

/-- The lines the loop produces from iteration `i` on: the formatted
conversions of the arguments up to the first one whose conversion does not
complete. -/
def linesOf (env : Env) (c : Config) : Nat → List GoString → List GoString
  | _, [] => []
  | i, d :: rest =>
    match convert env c i d with
    | Outcome.ok line => line :: linesOf env c (i + 1) rest
    | _ => []

/-- How the loop ends when no write fails: the way the first conversion that
does not complete ends, or `Exit.ok` when all complete. -/
def stopOf (env : Env) (c : Config) : Nat → List GoString → Exit
  | _, [] => Exit.ok
  | i, d :: rest =>
    match convert env c i d with
    | Outcome.ok _ => stopOf env c (i + 1) rest
    | Outcome.fatal f => Exit.fatal f
    | Outcome.panic => Exit.panic

/-- The text of a list of lines: each line followed by one newline. -/
def outputText (ls : List GoString) : GoString :=
  (ls.map (fun l => l ++ str "\n")).flatten

/-- The writer is usable: no error recorded and the buffer within its size. -/
def Writer.Ok (b : Writer) : Prop := b.err = false ∧ b.buf.length ≤ defaultBufSize

/-- An environment for examples: an empty time zone database, a clock that
stands at the epoch, no layout accepted by `time.ParseInLocation`, an empty
`Time.Format`, and a standard output that accepts every write. -/
def plainEnv : Env :=
  { zoneinfo := fun _ => none
    now := fun _ => Unix 0 0
    ParseInLocation := fun _ _ _ => none
    Format := fun _ _ => []
    write := fun _ p => (p.length, false) }

/-- The state of `main` when the loop starts, for arguments `a` whose
destination time zone (if the flag is not empty) resolves to `l1` and whose
source time zone resolves to `l2`. -/
def configOf (a : Args) (l1 l2 : Location) : Config :=
  { fromLayout := resolveLayout a.fromFlag
    toLayout := resolveLayout a.toFlag
    fromTZ := l2
    toTZ := if a.toTimeZone ≠ [] then some l1 else none }

/-! # Theorems -/

set_option maxRecDepth 8192

/-! ## Arithmetic of `int64` -/

theorem wrap64_of_range (x : Int) (h1 : -9223372036854775808 ≤ x)
    (h2 : x < 9223372036854775808) : wrap64 x = x := by
  unfold wrap64
  norm_num
  omega

theorem wrap64_range (x : Int) :
    -9223372036854775808 ≤ wrap64 x ∧ wrap64 x < 9223372036854775808 := by
  unfold wrap64
  norm_num
  omega

theorem wrap64_emod (x : Int) :
    wrap64 x % 18446744073709551616 = x % 18446744073709551616 := by
  unfold wrap64
  norm_num
  omega

theorem wrap64_congr (x y : Int)
    (h : x % 18446744073709551616 = y % 18446744073709551616) :
    wrap64 x = wrap64 y := by
  unfold wrap64
  norm_num
  omega

theorem tdiv_small (n : Int) (h1 : -1000000000 < n) (h2 : n < 1000000000) :
    Int.tdiv n 1000000000 = 0 := by
  rcases Int.lt_or_le n 0 with h | h
  · have : n = -(-n) := by omega
    rw [this, Int.neg_tdiv]
    rw [Int.tdiv_eq_ediv (by omega) (by omega)]
    omega
  · rw [Int.tdiv_eq_ediv h (by omega)]
    omega

/-! ## `time.Unix` and the readings of a `Time` -/

theorem In_Unix (t : Time) (l : Location) : (t.In l).Unix = t.Unix := rfl

theorem In_UnixNano (t : Time) (l : Location) : (t.In l).UnixNano = t.UnixNano := rfl

theorem Unix_Unix (sec : Int) (h1 : -9223372036854775808 ≤ sec)
    (h2 : sec < 9223372036854775808) : (Unix sec 0).Unix = sec := by
  simp only [Unix, Time.Unix]
  norm_num
  rw [← wrap64_of_range sec h1 h2]
  apply wrap64_congr
  have := wrap64_emod (wrap64 sec + unixToInternal)
  have := wrap64_of_range sec h1 h2
  omega

theorem Unix_UnixNano (sec n : Int) (hn1 : -1000000000 < n) (hn2 : n < 1000000000)
    (h1 : -9223372036854775808 ≤ sec * 1000000000 + n)
    (h2 : sec * 1000000000 + n < 9223372036854775808) :
    (Unix sec n).UnixNano = sec * 1000000000 + n := by
  have hsec := wrap64_of_range sec (by omega) (by omega)
  rw [← wrap64_of_range (sec * 1000000000 + n) h1 h2]
  simp only [Unix, Time.UnixNano]
  rw [tdiv_small n hn1 hn2]
  norm_num
  rw [show wrap64 0 = 0 from by decide, hsec]
  norm_num
  rw [wrap64_of_range n (by omega) (by omega)]
  by_cases hneg : n < 0
  · simp only [hneg, true_or, if_true]
    rw [wrap64_of_range (n + 1000000000) (by omega) (by omega)]
    apply wrap64_congr
    have e1 := wrap64_emod (wrap64 (sec - 1) + unixToInternal)
    have e2 := wrap64_emod (wrap64 (wrap64 (sec - 1) + unixToInternal) - unixToInternal)
    have e3 := wrap64_emod (wrap64 (wrap64 (wrap64 (sec - 1) + unixToInternal) - unixToInternal) * 1000000000)
    have e4 := wrap64_of_range (sec - 1) (by omega) (by omega)
    omega
  · have : ¬ (n < 0 ∨ 1000000000 ≤ n) := by omega
    simp only [this, if_false]
    apply wrap64_congr
    have e1 := wrap64_emod (sec + unixToInternal)
    have e2 := wrap64_emod (wrap64 (sec + unixToInternal) - unixToInternal)
    have e3 := wrap64_emod (wrap64 (wrap64 (sec + unixToInternal) - unixToInternal) * 1000000000)
    omega

/-! ## `strconv`: formatting -/

theorem decimal_step (u : Nat) (h : 10 ≤ u) :
    decimal u = decimal (u / 10) ++ [48 + u % 10] := by
  have h0 : u ≠ 0 := by omega
  have h1 : u / 10 ≠ 0 := by omega
  simp only [decimal, h0, h1, if_false]
  rw [Nat.digits_def' (by norm_num) (by omega)]
  simp

theorem decimal_small (u : Nat) (h : u < 10) : decimal u = [48 + u] := by
  by_cases h0 : u = 0
  · subst h0; rfl
  · simp only [decimal, h0, if_false]
    rw [Nat.digits_of_lt 10 u h0 h]
    rfl

theorem formatBitsLoop_eq (fuel : Nat) : ∀ (u : Nat) (a : GoString),
    u < 10 ^ fuel → 0 < fuel → formatBitsLoop fuel u a = decimal u ++ a := by
  induction fuel with
  | zero => intro u a _ h; omega
  | succ fuel ih =>
    intro u a hu _
    unfold formatBitsLoop
    by_cases h10 : u ≥ 10
    · simp only [h10, if_true]
      have hf : 0 < fuel := by
        rcases Nat.eq_zero_or_pos fuel with h | h
        · subst h; simp at hu; omega
        · exact h
      have hlt : u / 10 < 10 ^ fuel := by
        rw [Nat.div_lt_iff_lt_mul (by norm_num)]
        rw [pow_succ] at hu
        exact hu
      rw [ih (u / 10) _ hlt hf, decimal_step u h10]
      simp
    · simp only [h10, if_false]
      rw [decimal_small u (by omega)]
      rfl

theorem FormatInt_eq_decimalInt (i : Int) (h1 : -9223372036854775808 ≤ i)
    (h2 : i < 9223372036854775808) : FormatInt i = decimalInt i := by
  unfold FormatInt decimalInt
  by_cases hneg : i < 0
  · have hu : (2 ^ 64 - (i % 2 ^ 64).toNat) % 2 ^ 64 = i.natAbs := by
      norm_num
      omega
    simp only [hneg, decide_True, if_true, hu]
    rw [formatBitsLoop_eq 65 _ _ (by norm_num; omega) (by norm_num)]
    simp
  · have hu : (i % 2 ^ 64).toNat = i.natAbs := by
      norm_num
      omega
    simp only [hneg, decide_False, if_false, hu, Bool.false_eq_true]
    rw [formatBitsLoop_eq 65 _ _ (by norm_num; omega) (by norm_num)]
    simp

/-! ## `strconv`: parsing -/

theorem foldDigits_ge (s : GoString) : ∀ n : Nat,
    n ≤ s.foldl (fun n c => n * 10 + (c - 48)) n := by
  induction s with
  | nil => intro n; simp
  | cons c cs ih =>
    intro n
    simp only [List.foldl_cons]
    exact Nat.le_trans (by omega) (ih _)

theorem parseUintLoop_digits (s : GoString) : ∀ n : Nat, IsDigits s →
    s.foldl (fun n c => n * 10 + (c - 48)) n < 2 ^ 64 →
    parseUintLoop s n = (s.foldl (fun n c => n * 10 + (c - 48)) n, none) := by
  induction s with
  | nil => intro n _ _; rfl
  | cons c cs ih =>
    intro n hd hlt
    have hc : 48 ≤ c ∧ c ≤ 57 := hd c (List.mem_cons_self c cs)
    have hcs : IsDigits cs := fun x hx => hd x (List.mem_cons_of_mem c hx)
    simp only [List.foldl_cons] at hlt ⊢
    have hge := foldDigits_ge cs (n * 10 + (c - 48))
    have hb : n * 10 + (c - 48) < 18446744073709551616 := by
      have : (2 : Nat) ^ 64 = 18446744073709551616 := by norm_num
      omega
    unfold parseUintLoop
    simp only [hc, and_self, if_true]
    have h1 : ¬ (c - 48 ≥ 10) := by omega
    have h2 : ¬ (n ≥ maxUint64 / 10 + 1) := by
      simp only [maxUint64]; omega
    have e10 : (n * 10) % 2 ^ 64 = n * 10 := by
      norm_num; omega
    have e1 : (n * 10 + (c - 48)) % 2 ^ 64 = n * 10 + (c - 48) := by
      norm_num; omega
    have h3 : ¬ (n * 10 + (c - 48) < n * 10 ∨ n * 10 + (c - 48) > maxUint64) := by
      simp only [maxUint64]; omega
    simp only [h1, h2, e10, e1, h3, if_false]
    exact ih _ hcs hlt

theorem ParseUint_digits (s : GoString) (hne : s ≠ []) (hd : IsDigits s)
    (hlt : digitsValue s < 2 ^ 64) : ParseUint s = (digitsValue s, none) := by
  unfold ParseUint
  simp only [hne, if_false]
  exact parseUintLoop_digits s 0 hd hlt

theorem ParseInt_digits (s : GoString) (hne : s ≠ []) (hd : IsDigits s)
    (hlt : digitsValue s < 2 ^ 63) : ParseInt s = ((digitsValue s : Int), none) := by
  cases s with
  | nil => exact absurd rfl hne
  | cons c cs =>
    have hc : 48 ≤ c ∧ c ≤ 57 := hd c (List.mem_cons_self c cs)
    have h43 : c ≠ 43 := by omega
    have h45 : c ≠ 45 := by omega
    have hlt2 : digitsValue (c :: cs) < 2 ^ 64 := by
      have : (2 : Nat) ^ 63 < 2 ^ 64 := by norm_num
      omega
    have hnot : ¬ (digitsValue (c :: cs) ≥ 2 ^ 63) := by omega
    unfold ParseInt
    simp only [h43, h45, if_false, decide_False, ParseUint_digits (c :: cs) hne hd hlt2]
    simp
    norm_num at hlt
    omega

theorem ParseInt_neg_digits (s : GoString) (hne : s ≠ []) (hd : IsDigits s)
    (hlt : digitsValue s ≤ 2 ^ 63) :
    ParseInt (45 :: s) = (-(digitsValue s : Int), none) := by
  have hlt2 : digitsValue s < 2 ^ 64 := by
    have : (2 : Nat) ^ 63 < 2 ^ 64 := by norm_num
    omega
  have hnot : ¬ (digitsValue s > 2 ^ 63) := by omega
  unfold ParseInt
  simp only [show (45 : Nat) ≠ 43 from by decide, if_false, if_true, decide_True,
    ParseUint_digits s hne hd hlt2]
  simp
  norm_num at hlt
  omega

theorem digitsValue_append (a b : GoString) :
    digitsValue (a ++ b) = digitsValue a * 10 ^ b.length + digitsValue b := by
  induction b using List.reverseRecOn with
  | nil => simp [digitsValue]
  | append_singleton b c ih =>
    have e : digitsValue (a ++ (b ++ [c])) = digitsValue (a ++ b) * 10 + (c - 48) := by
      simp [digitsValue, List.foldl_append]
    have e2 : digitsValue (b ++ [c]) = digitsValue b * 10 + (c - 48) := by
      simp [digitsValue, List.foldl_append]
    rw [e, e2, ih]
    simp [pow_succ]
    ring

theorem digitsValue_lt (s : GoString) (hd : IsDigits s) : digitsValue s < 10 ^ s.length := by
  induction s using List.reverseRecOn with
  | nil => simp [digitsValue]
  | append_singleton b c ih =>
    have hc : 48 ≤ c ∧ c ≤ 57 := hd c (by simp)
    have hb : IsDigits b := fun x hx => hd x (by simp [hx])
    have := ih hb
    rw [digitsValue_append]
    simp only [List.length_append, List.length_singleton, pow_succ, pow_zero, one_mul]
    have e : digitsValue [c] = c - 48 := by simp [digitsValue]
    rw [e]
    omega

/-! ## `strconv`: formatting and parsing are inverse -/

theorem foldDigits_reverse_map (l : List Nat) :
    digitsValue (l.reverse.map (fun d => 48 + d)) = Nat.ofDigits 10 l := by
  induction l with
  | nil => simp [digitsValue]
  | cons x l ih =>
    have e : (x :: l).reverse.map (fun d => 48 + d)
        = l.reverse.map (fun d => 48 + d) ++ [48 + x] := by simp
    rw [e, digitsValue_append, ih, Nat.ofDigits_cons]
    simp [digitsValue]
    ring

theorem digitsValue_decimal (u : Nat) : digitsValue (decimal u) = u := by
  unfold decimal
  by_cases h : u = 0
  · subst h; rfl
  · simp only [h, if_false]
    rw [foldDigits_reverse_map, Nat.ofDigits_digits]

theorem decimal_isDigits (u : Nat) : IsDigits (decimal u) := by
  unfold decimal
  by_cases h : u = 0
  · subst h; intro c hc; simp at hc; omega
  · simp only [h, if_false]
    intro c hc
    simp only [List.mem_map, List.mem_reverse] at hc
    obtain ⟨d, hd, rfl⟩ := hc
    have := Nat.digits_lt_base (by norm_num : 1 < 10) hd
    omega

theorem decimal_ne_nil (u : Nat) : decimal u ≠ [] := by
  unfold decimal
  by_cases h : u = 0
  · subst h; simp
  · simp only [h, if_false]
    simp [Nat.digits_ne_nil_iff_ne_zero, h]

theorem ParseInt_FormatInt (i : Int) (h1 : -9223372036854775808 ≤ i)
    (h2 : i < 9223372036854775808) : ParseInt (FormatInt i) = (i, none) := by
  rw [FormatInt_eq_decimalInt i h1 h2]
  unfold decimalInt
  by_cases hneg : i < 0
  · simp only [hneg, if_true]
    rw [ParseInt_neg_digits _ (decimal_ne_nil _) (decimal_isDigits _)
      (by rw [digitsValue_decimal]; norm_num; omega)]
    rw [digitsValue_decimal]
    congr 1
    omega
  · simp only [hneg, if_false]
    rw [ParseInt_digits _ (decimal_ne_nil _) (decimal_isDigits _)
      (by rw [digitsValue_decimal]; norm_num; omega)]
    rw [digitsValue_decimal]
    congr 1
    omega

theorem decimal_digitsValue (s : GoString) (hd : IsDigits s) (hne : s ≠ [])
    (hhead : s.head hne ≠ 48) : decimal (digitsValue s) = s := by
  have hL : ∀ l ∈ (s.map (fun c => c - 48)).reverse, l < 10 := by
    intro l hl
    simp only [List.mem_reverse, List.mem_map] at hl
    obtain ⟨c, hc, rfl⟩ := hl
    have := hd c hc
    omega
  have hlast : ∀ h : (s.map (fun c => c - 48)).reverse ≠ [],
      (s.map (fun c => c - 48)).reverse.getLast h ≠ 0 := by
    intro h
    rw [List.getLast_reverse]
    cases s with
    | nil => exact absurd rfl hne
    | cons c cs =>
      have := hd c (List.mem_cons_self c cs)
      simp only [List.head_cons] at hhead
      simp only [List.map_cons, List.head_cons]
      omega
  have hof : Nat.ofDigits 10 (s.map (fun c => c - 48)).reverse = digitsValue s := by
    rw [← foldDigits_reverse_map]
    simp only [List.reverse_reverse, List.map_map]
    congr 1
    have : ∀ c ∈ s, ((fun d => 48 + d) ∘ fun c => c - 48) c = id c := by
      intro c hc
      have := hd c hc
      simp only [Function.comp, id]
      omega
    rw [List.map_congr_left this]
    simp
  have hdig := Nat.digits_ofDigits 10 (by norm_num) _ hL hlast
  rw [hof] at hdig
  have hnz : digitsValue s ≠ 0 := by
    intro h0
    rw [h0] at hdig
    simp at hdig
    exact hne hdig
  unfold decimal
  simp only [hnz, if_false, hdig, List.reverse_reverse, List.map_map]
  have : ∀ c ∈ s, ((fun d => 48 + d) ∘ fun c => c - 48) c = id c := by
    intro c hc
    have := hd c hc
    simp only [Function.comp, id]
    omega
  rw [List.map_congr_left this]
  simp

theorem parseUintLoop_ok (s : GoString) : ∀ n v : Nat, parseUintLoop s n = (v, none) →
    IsDigits s ∧ v = s.foldl (fun n c => n * 10 + (c - 48)) n := by
  induction s with
  | nil =>
    intro n v h
    simp only [parseUintLoop, Prod.mk.injEq, and_true] at h
    exact ⟨fun c hc => absurd hc (List.not_mem_nil c), by simp [h]⟩
  | cons c cs ih =>
    intro n v h
    unfold parseUintLoop at h
    by_cases hc : 48 ≤ c ∧ c ≤ 57
    · rw [if_pos hc] at h
      have h1 : ¬ (c - 48 ≥ 10) := by omega
      simp only [] at h
      rw [if_neg h1] at h
      by_cases h2 : n ≥ maxUint64 / 10 + 1
      · rw [if_pos h2] at h
        simp at h
      · rw [if_neg h2] at h
        have hn : n ≤ 1844674407370955161 := by
          simp only [maxUint64] at h2; omega
        have e10 : (n * 10) % 2 ^ 64 = n * 10 := by
          norm_num; omega
        rw [e10] at h
        by_cases h3 : (n * 10 + (c - 48)) % 2 ^ 64 < n * 10 ∨
            (n * 10 + (c - 48)) % 2 ^ 64 > maxUint64
        · rw [if_pos h3] at h
          simp at h
        · rw [if_neg h3] at h
          have e1 : (n * 10 + (c - 48)) % 2 ^ 64 = n * 10 + (c - 48) := by
            norm_num at h3 ⊢
            omega
          rw [e1] at h
          obtain ⟨hd, hv⟩ := ih _ _ h
          refine ⟨?_, by simpa using hv⟩
          intro x hx
          rcases List.mem_cons.mp hx with rfl | hx
          · exact hc
          · exact hd x hx
    · exfalso
      rw [if_neg hc] at h
      by_cases hl : 97 ≤ lower c ∧ lower c ≤ 122
      · rw [if_pos hl] at h
        have : lower c - 97 + 10 ≥ 10 := by omega
        simp only [] at h
        rw [if_pos this] at h
        simp at h
      · rw [if_neg hl] at h
        simp at h

theorem parseUintLoop_range (s : GoString) : ∀ n v : Nat,
    parseUintLoop s n = (v, some NumError.ErrRange) → v = maxUint64 := by
  induction s with
  | nil => intro n v h; simp [parseUintLoop] at h
  | cons c cs ih =>
    intro n v h
    unfold parseUintLoop at h
    have key : ∀ d : Nat,
        (if d ≥ 10 then ((0 : Nat), some NumError.ErrSyntax)
          else if n ≥ maxUint64 / 10 + 1 then (maxUint64, some NumError.ErrRange)
          else
            if (n * 10 % 2 ^ 64 + d) % 2 ^ 64 < n * 10 % 2 ^ 64 ∨
                (n * 10 % 2 ^ 64 + d) % 2 ^ 64 > maxUint64 then
              (maxUint64, some NumError.ErrRange)
            else parseUintLoop cs ((n * 10 % 2 ^ 64 + d) % 2 ^ 64)) =
          (v, some NumError.ErrRange) → v = maxUint64 := by
      intro d hd
      by_cases h1 : d ≥ 10
      · rw [if_pos h1] at hd; simp at hd
      · rw [if_neg h1] at hd
        by_cases h2 : n ≥ maxUint64 / 10 + 1
        · rw [if_pos h2] at hd
          simp only [Prod.mk.injEq, and_true] at hd
          exact hd.symm
        · rw [if_neg h2] at hd
          by_cases h3 : (n * 10 % 2 ^ 64 + d) % 2 ^ 64 < n * 10 % 2 ^ 64 ∨
                (n * 10 % 2 ^ 64 + d) % 2 ^ 64 > maxUint64
          · rw [if_pos h3] at hd
            simp only [Prod.mk.injEq, and_true] at hd
            exact hd.symm
          · rw [if_neg h3] at hd
            exact ih _ _ hd
    by_cases hc : 48 ≤ c ∧ c ≤ 57
    · rw [if_pos hc] at h
      exact key _ h
    · rw [if_neg hc] at h
      by_cases hl : 97 ≤ lower c ∧ lower c ≤ 122
      · rw [if_pos hl] at h
        exact key _ h
      · rw [if_neg hl] at h
        simp at h

theorem ParseUint_cases (s : GoString) (v : Nat) (e : Option NumError)
    (h : ParseUint s = (v, e)) :
    e = some NumError.ErrSyntax ∨ (e = some NumError.ErrRange ∧ v = maxUint64) ∨
    (e = none ∧ s ≠ [] ∧ IsDigits s ∧ v = digitsValue s) := by
  unfold ParseUint at h
  by_cases he : s = []
  · rw [if_pos he] at h
    simp only [Prod.mk.injEq] at h
    exact Or.inl h.2.symm
  · rw [if_neg he] at h
    cases e with
    | none => exact Or.inr (Or.inr ⟨rfl, he, parseUintLoop_ok s 0 v h⟩)
    | some k =>
      cases k with
      | ErrSyntax => exact Or.inl rfl
      | ErrRange => exact Or.inr (Or.inl ⟨rfl, parseUintLoop_range s 0 v h⟩)

/-- Characterisation of the inputs `strconv.ParseInt(s, 10, 64)` accepts. -/
theorem ParseInt_ok (s : GoString) (n : Int) (h : ParseInt s = (n, none)) :
    ∃ t : GoString, t ≠ [] ∧ IsDigits t ∧
      (((s = t ∨ s = 43 :: t) ∧ n = (digitsValue t : Int) ∧ digitsValue t < 2 ^ 63) ∨
       (s = 45 :: t ∧ n = -(digitsValue t : Int) ∧ digitsValue t ≤ 2 ^ 63)) := by
  cases s with
  | nil => simp [ParseInt] at h
  | cons c rest =>
    unfold ParseInt at h
    simp only at h
    generalize hs1 : (if c = 43 then rest else if c = 45 then rest else c :: rest) = s1 at h
    rcases hr : ParseUint s1 with ⟨v, e⟩
    rw [hr] at h
    simp only at h
    by_cases h1 : e = some NumError.ErrSyntax
    · rw [if_pos h1] at h
      simp [h1] at h
    · rw [if_neg h1] at h
      by_cases h2 : ¬ (decide (c = 45) = true) ∧ v ≥ 2 ^ 63
      · rw [if_pos h2] at h
        simp at h
      · rw [if_neg h2] at h
        by_cases h3 : decide (c = 45) = true ∧ v > 2 ^ 63
        · rw [if_pos h3] at h
          simp at h
        · rw [if_neg h3] at h
          simp only [Prod.mk.injEq, and_true] at h
          have hv63 : v ≤ 2 ^ 63 := by
            by_cases h45 : c = 45
            · simp only [h45, decide_True, true_and] at h3
              omega
            · simp only [h45, decide_False, Bool.false_eq_true, not_false_eq_true,
                true_and] at h2
              omega
          rcases ParseUint_cases s1 v e hr with hc | ⟨_, hc⟩ | ⟨_, hne, hd, hv⟩
          · exact absurd hc h1
          · exfalso
            simp only [maxUint64] at hc
            norm_num at hv63
            omega
          · refine ⟨s1, hne, hd, ?_⟩
            by_cases h45 : c = 45
            · right
              subst h45
              simp only [show (45 : Nat) ≠ 43 from by decide, if_false, if_true] at hs1
              simp only [decide_True, if_true] at h
              refine ⟨by rw [hs1], by rw [← h, hv], by rw [← hv]; exact hv63⟩
            · left
              simp only [h45, decide_False, if_false, Bool.false_eq_true, not_false_eq_true,
                true_and] at h h2 hs1
              refine ⟨?_, by rw [← h, hv], by rw [← hv]; omega⟩
              by_cases h43 : c = 43
              · right
                simp only [h43, if_true] at hs1
                rw [h43, hs1]
              · left
                simp only [h43, if_false] at hs1
                exact hs1

theorem ParseInt_range (s : GoString) (n : Int) (h : ParseInt s = (n, none)) :
    -9223372036854775808 ≤ n ∧ n < 9223372036854775808 := by
  obtain ⟨t, _, _, h1 | h1⟩ := ParseInt_ok s n h
  · obtain ⟨_, hn, hlt⟩ := h1
    norm_num at hlt
    omega
  · obtain ⟨_, hn, hlt⟩ := h1
    norm_num at hlt
    omega

theorem ParseInt_now : ParseInt (str "now") = (0, some NumError.ErrSyntax) := by decide

theorem canonical_decimalInt (s : GoString) (n : Int) (hc : IsCanonicalInt s)
    (h : ParseInt s = (n, none)) : decimalInt n = s := by
  obtain ⟨t, hne, hd, h1 | h1⟩ := ParseInt_ok s n h
  · obtain ⟨hs, hn, _⟩ := h1
    rcases hs with hs | hs
    · subst hs
      cases s with
      | nil => exact absurd rfl hne
      | cons c cs =>
        have hcd := hd c (List.mem_cons_self c cs)
        have h45 : c ≠ 45 := by omega
        simp only [IsCanonicalInt, List.head?_cons, Option.some.injEq, h45, if_false] at hc
        have hnn : ¬ (n < 0) := by omega
        have habs : n.natAbs = digitsValue (c :: cs) := by omega
        simp only [decimalInt, hnn, if_false, habs]
        by_cases h48 : c = 48
        · rw [hc.2.2 h48]; rfl
        · exact decimal_digitsValue (c :: cs) hd hne (by simpa using h48)
    · subst hs
      exfalso
      simp only [IsCanonicalInt, List.head?_cons, Option.some.injEq,
        show (43 : Nat) ≠ 45 from by decide, if_false] at hc
      have := hc.2.1 43 (List.mem_cons_self 43 t)
      omega
  · obtain ⟨hs, hn, _⟩ := h1
    subst hs
    simp only [IsCanonicalInt, List.head?_cons, if_true, List.tail_cons] at hc
    cases t with
    | nil => exact absurd rfl hne
    | cons c cs =>
      have h48 : c ≠ 48 := by
        intro h48
        have := hc.2.2 (by simp [h48])
        simp at this
      have hdec := decimal_digitsValue (c :: cs) hd hne (by simpa using h48)
      have hpos : digitsValue (c :: cs) ≠ 0 := by
        intro h0
        rw [h0] at hdec
        have : c = 48 := by
          have := congrArg List.head? hdec
          simpa [decimal] using this.symm
        exact h48 this
      have hneg : n < 0 := by omega
      have habs : n.natAbs = digitsValue (c :: cs) := by omega
      simp only [decimalInt, hneg, if_true, habs, hdec]

theorem convert_timestamp (env : Env) (c : Config) (i : Nat) (s : GoString) (n : Int)
    (hf : c.fromLayout = str "TIMESTAMP") (hnow : s ≠ str "now")
    (hp : ParseInt s = (n, none)) :
    convert env c i s = Outcome.ok (formatDate env c (Unix n 0)) := by
  simp only [convert, parseDate, hnow, hf, if_false, if_true, hp]

theorem formatDate_timestamp (env : Env) (c : Config) (t : Time)
    (ht : c.toLayout = str "TIMESTAMP") : formatDate env c t = FormatInt t.Unix := by
  unfold formatDate
  cases c.toTZ <;> simp [ht, In_Unix]

theorem formatDate_timestampnano (env : Env) (c : Config) (t : Time)
    (ht : c.toLayout = str "TIMESTAMPNANO") : formatDate env c t = FormatInt t.UnixNano := by
  have hne : str "TIMESTAMPNANO" ≠ str "TIMESTAMP" := by decide
  unfold formatDate
  cases c.toTZ <;> simp [ht, hne, In_UnixNano]

theorem decimal_head (u : Nat) (h : (decimal u).head? = some 48) : u = 0 := by
  by_contra h0
  have hd := decimal_digitsValue (decimal u) (decimal_isDigits u) (decimal_ne_nil u)
  unfold decimal at h
  simp only [h0, if_false] at h
  have hne : Nat.digits 10 u ≠ [] := by
    simp [Nat.digits_ne_nil_iff_ne_zero, h0]
  have hl := Nat.getLast_digit_ne_zero 10 h0
  rw [List.head?_map, List.head?_reverse, List.getLast?_eq_getLast _ hne] at h
  simp only [Option.map_some', Option.some.injEq] at h
  omega

theorem decimalInt_canonical (n : Int) : IsCanonicalInt (decimalInt n) := by
  unfold decimalInt
  by_cases hneg : n < 0
  · simp only [hneg, if_true, IsCanonicalInt, List.head?_cons, List.tail_cons]
    refine ⟨decimal_ne_nil _, decimal_isDigits _, ?_⟩
    intro h
    have := decimal_head _ h
    omega
  · simp only [hneg, if_false, IsCanonicalInt]
    have h45 : (decimal n.natAbs).head? ≠ some 45 := by
      intro h
      cases hd : decimal n.natAbs with
      | nil => rw [hd] at h; simp at h
      | cons c cs =>
        rw [hd] at h
        simp only [List.head?_cons, Option.some.injEq] at h
        have := decimal_isDigits n.natAbs c (by rw [hd]; exact List.mem_cons_self c cs)
        omega
    simp only [h45, if_false]
    refine ⟨decimal_ne_nil _, decimal_isDigits _, ?_⟩
    intro h
    rw [decimal_head _ h]
    rfl

/-! ## The `TIMESTAMPNANO` split -/

theorem slice_nanos (s : GoString) (h : 9 ≤ s.length) :
    slice s ((s.length : Int) - 9) s.length = some (s.drop (s.length - 9)) := by
  unfold slice
  have h1 : (0 : Int) ≤ (s.length : Int) - 9 ∧ (s.length : Int) - 9 ≤ (s.length : Int) ∧
      (s.length : Int) ≤ (s.length : Int) := by omega
  rw [if_pos h1]
  have e1 : ((s.length : Int)).toNat = s.length := by omega
  have e2 : ((s.length : Int) - 9).toNat = s.length - 9 := by omega
  rw [e1, e2, List.take_length]

theorem slice_seconds (s : GoString) (h : 9 ≤ s.length) :
    slice s 0 ((s.length : Int) - 9) = some (s.take (s.length - 9)) := by
  unfold slice
  have h1 : (0 : Int) ≤ 0 ∧ (0 : Int) ≤ (s.length : Int) - 9 ∧
      (s.length : Int) - 9 ≤ (s.length : Int) := by omega
  rw [if_pos h1]
  have e2 : ((s.length : Int) - 9).toNat = s.length - 9 := by omega
  rw [e2]
  simp

theorem slice_short (s : GoString) (h : s.length < 9) :
    slice s ((s.length : Int) - 9) s.length = none := by
  unfold slice
  have h1 : ¬ ((0 : Int) ≤ (s.length : Int) - 9 ∧ (s.length : Int) - 9 ≤ (s.length : Int) ∧
      (s.length : Int) ≤ (s.length : Int)) := by omega
  rw [if_neg h1]

theorem ParseInt_bound (s : GoString) (n : Int) (h : ParseInt s = (n, none)) :
    -(10 ^ s.length : Int) < n ∧ n < (10 ^ s.length : Int) := by
  obtain ⟨t, _, hd, h1 | h1⟩ := ParseInt_ok s n h
  · obtain ⟨hs, hn, _⟩ := h1
    have hlt := digitsValue_lt t hd
    have hle : (10 : Nat) ^ t.length ≤ 10 ^ s.length := by
      apply Nat.pow_le_pow_right (by norm_num)
      rcases hs with hs | hs <;> simp [hs]
    have : (digitsValue t : Int) < (10 ^ s.length : Int) := by
      exact_mod_cast Nat.lt_of_lt_of_le hlt hle
    have hp : (0 : Int) < (10 ^ s.length : Int) := by positivity
    omega
  · obtain ⟨hs, hn, _⟩ := h1
    have hlt := digitsValue_lt t hd
    have hle : (10 : Nat) ^ t.length ≤ 10 ^ s.length := by
      apply Nat.pow_le_pow_right (by norm_num)
      simp [hs]
    have : (digitsValue t : Int) < (10 ^ s.length : Int) := by
      exact_mod_cast Nat.lt_of_lt_of_le hlt hle
    have hp : (0 : Int) < (10 ^ s.length : Int) := by positivity
    omega

theorem convert_timestampnano (env : Env) (c : Config) (i : Nat) (s : GoString)
    (sec n : Int) (hf : c.fromLayout = str "TIMESTAMPNANO") (hnow : s ≠ str "now")
    (hlen : 9 ≤ s.length)
    (hsec : ParseInt (s.take (s.length - 9)) = (sec, none))
    (hn : ParseInt (s.drop (s.length - 9)) = (n, none)) :
    convert env c i s = Outcome.ok (formatDate env c (Unix sec n)) ∧
      -1000000000 < n ∧ n < 1000000000 := by
  have hne : str "TIMESTAMPNANO" ≠ str "TIMESTAMP" := by decide
  refine ⟨?_, ?_⟩
  · simp only [convert, parseDate, hnow, hf, hne, if_false, if_true, slice_nanos s hlen,
      slice_seconds s hlen, hsec, hn]
  · have hb := ParseInt_bound _ n hn
    have hl : (s.drop (s.length - 9)).length = 9 := by
      rw [List.length_drop]; omega
    rw [hl] at hb
    norm_num at hb
    exact hb

/-! ## The buffered writer -/

theorem writeStringLoop_small (env : Env) (fuel : Nat) (s : GoString) (b : Writer)
    (h : s.length ≤ b.Available) : writeStringLoop env fuel s b = (s, b) := by
  cases fuel with
  | zero => rfl
  | succ fuel =>
    unfold writeStringLoop
    have : ¬ (s.length > b.Available ∧ b.err = false) := by omega
    rw [if_neg this]

theorem stdoutWrite_reliable (env : Env) (hr : env.Reliable) (out p : GoString) :
    stdoutWrite env out p = (p.length, false) := by
  simp [stdoutWrite, hr out p]

theorem Flush_reliable (env : Env) (hr : env.Reliable) (b : Writer) (he : b.err = false) :
    b.Flush env = ({ wr := b.wr ++ b.buf, buf := [], err := false }, false) := by
  unfold Writer.Flush
  simp only [he, Bool.false_eq_true, if_false]
  by_cases h0 : b.buf.length = 0
  · rw [if_pos h0]
    have : b.buf = [] := List.length_eq_zero.mp h0
    cases b
    simp_all
  · rw [if_neg h0, stdoutWrite_reliable env hr b.wr b.buf]
    simp

theorem writeStringLoop_reliable (env : Env) (hr : env.Reliable) (fuel : Nat) :
    ∀ (s : GoString) (b : Writer), b.Ok →
      s.length + (if b.Available = 0 then 1 else 0) ≤ fuel →
      (writeStringLoop env fuel s b).2.Ok ∧
      (writeStringLoop env fuel s b).1.length ≤ (writeStringLoop env fuel s b).2.Available ∧
      (writeStringLoop env fuel s b).2.wr ++ (writeStringLoop env fuel s b).2.buf
          ++ (writeStringLoop env fuel s b).1 = b.wr ++ b.buf ++ s ∧
      b.wr <+: (writeStringLoop env fuel s b).2.wr := by
  induction fuel with
  | zero =>
    intro s b hb hf
    have hs : s = [] := by
      apply List.length_eq_zero.mp; omega
    subst hs
    exact ⟨hb, by simp [writeStringLoop], by simp [writeStringLoop], List.prefix_refl _⟩
  | succ fuel ih =>
    intro s b hb hf
    by_cases hlt : s.length ≤ b.Available
    · rw [writeStringLoop_small env _ s b hlt]
      exact ⟨hb, hlt, rfl, List.prefix_refl _⟩
    · have hcond : s.length > b.Available ∧ b.err = false := ⟨by omega, hb.1⟩
      by_cases h0 : b.buf.length = 0
      · have hbuf : b.buf = [] := List.length_eq_zero.mp h0
        have hstep : writeStringLoop env (fuel + 1) s b
            = writeStringLoop env fuel [] (Writer.mk (b.wr ++ s) b.buf false) := by
          conv_lhs => unfold writeStringLoop
          rw [if_pos hcond, if_pos h0]
          simp only [stdoutWrite_reliable env hr b.wr s, List.drop_length, List.take_length]
        rw [hstep, writeStringLoop_small env fuel [] _ (by simp)]
        refine ⟨⟨rfl, hb.2⟩, by simp, ?_, List.prefix_append _ _⟩
        simp [hbuf]
      · have hfl := Flush_reliable env hr
          (Writer.mk b.wr (b.buf ++ s.take b.Available) b.err) hb.1
        have hstep : writeStringLoop env (fuel + 1) s b
            = writeStringLoop env fuel (s.drop b.Available)
                (Writer.mk (b.wr ++ (b.buf ++ s.take b.Available)) [] false) := by
          conv_lhs => unfold writeStringLoop
          rw [if_pos hcond, if_neg h0, Nat.min_eq_right (by omega : b.Available ≤ s.length)]
          simp only []
          rw [hfl]
        rw [hstep]
        have hok : (Writer.mk (b.wr ++ (b.buf ++ s.take b.Available)) [] false).Ok :=
          ⟨rfl, by simp⟩
        have hav : (Writer.mk (b.wr ++ (b.buf ++ s.take b.Available)) [] false).Available
            = defaultBufSize := by simp [Writer.Available]
        have hfuel : (s.drop b.Available).length +
            (if (Writer.mk (b.wr ++ (b.buf ++ s.take b.Available)) [] false).Available = 0
              then 1 else 0) ≤ fuel := by
          rw [hav]
          simp only [defaultBufSize, List.length_drop]
          split at hf <;> simp_all
          omega
        obtain ⟨h1, h2, h3, h4⟩ := ih _ _ hok hfuel
        refine ⟨h1, h2, ?_, ?_⟩
        · rw [h3]
          simp only [List.append_nil, List.append_assoc]
          rw [List.take_append_drop]
        · exact List.IsPrefix.trans (List.prefix_append _ _) h4

theorem WriteString_reliable (env : Env) (hr : env.Reliable) (b : Writer) (hb : b.Ok)
    (s : GoString) :
    (b.WriteString env s).2 = false ∧ (b.WriteString env s).1.Ok ∧
      (b.WriteString env s).1.wr ++ (b.WriteString env s).1.buf = b.wr ++ b.buf ++ s ∧
      b.wr <+: (b.WriteString env s).1.wr := by
  have hf : s.length + (if b.Available = 0 then 1 else 0) ≤ s.length + 1 := by
    split <;> omega
  obtain ⟨h1, h2, h3, h4⟩ := writeStringLoop_reliable env hr (s.length + 1) s b hb hf
  unfold Writer.WriteString
  simp only [h1.1, Bool.false_eq_true, if_false]
  rw [Nat.min_eq_left h2, List.take_length]
  refine ⟨trivial, ⟨rfl, ?_⟩, ?_, h4⟩
  · have := h1.2
    simp only [Writer.Available] at h2
    simp only [List.length_append]
    omega
  · rw [← List.append_assoc]
    exact h3

/-- A string larger than the buffer, written while the buffer is empty, goes
to standard output at once. -/
theorem WriteString_large (env : Env) (hr : env.Reliable) (b : Writer) (s : GoString)
    (he : b.err = false) (hbuf : b.buf = []) (hs : defaultBufSize < s.length) :
    b.WriteString env s = (Writer.mk (b.wr ++ s) [] false, false) := by
  have hcond : s.length > b.Available ∧ b.err = false := by
    refine ⟨?_, he⟩
    simp only [Writer.Available, hbuf, List.length_nil]
    omega
  have h0 : b.buf.length = 0 := by rw [hbuf]; rfl
  have hstep : writeStringLoop env (s.length + 1) s b
      = (([] : GoString), Writer.mk (b.wr ++ s) b.buf false) := by
    conv_lhs => unfold writeStringLoop
    rw [if_pos hcond, if_pos h0]
    simp only [stdoutWrite_reliable env hr b.wr s, List.drop_length, List.take_length]
    exact writeStringLoop_small env _ [] _ (by simp)
  unfold Writer.WriteString
  rw [hstep]
  simp [hbuf]

/-! ## The conversion loop -/

theorem outputText_cons (l : GoString) (ls : List GoString) :
    outputText (l :: ls) = l ++ str "\n" ++ outputText ls := by
  simp [outputText]

theorem newline_length : (str "\n").length = 1 := by decide

/-- When standard output accepts every write, the loop ends as `stopOf`
says, and everything written (on standard output or still buffered) is the
text of the lines of `linesOf`. -/
theorem convertLoop_reliable (env : Env) (hr : env.Reliable) (c : Config)
    (inputs : List GoString) :
    ∀ (i : Nat) (b : Writer), b.Ok →
      (convertLoop env c i inputs b).2 = stopOf env c i inputs ∧
      (convertLoop env c i inputs b).1.Ok ∧
      (convertLoop env c i inputs b).1.wr ++ (convertLoop env c i inputs b).1.buf
        = b.wr ++ b.buf ++ outputText (linesOf env c i inputs) ∧
      b.wr <+: (convertLoop env c i inputs b).1.wr := by
  induction inputs with
  | nil =>
    intro i b hb
    simp [convertLoop, linesOf, stopOf, outputText, hb]
  | cons d rest ih =>
    intro i b hb
    unfold convertLoop linesOf stopOf
    cases hc : convert env c i d with
    | fatal f => simp [outputText, hb]
    | panic => simp [outputText, hb]
    | ok line =>
      simp only []
      obtain ⟨w1, w2, w3, w4⟩ := WriteString_reliable env hr b hb line
      obtain ⟨v1, v2, v3, v4⟩ := WriteString_reliable env hr _ w2 (str "\n")
      rw [w1]
      simp only [Bool.false_eq_true, if_false]
      obtain ⟨h1, h2, h3, h4⟩ := ih (i + 1) _ v2
      refine ⟨h1, h2, ?_, ?_⟩
      · rw [h3, v3, w3, outputText_cons]
        simp only [List.append_assoc]
      · exact List.IsPrefix.trans (List.IsPrefix.trans w4 v4) h4

theorem plainEnv_reliable : plainEnv.Reliable := fun _ _ => rfl

theorem NewWriter_ok : NewWriter.Ok := ⟨rfl, by decide⟩

/-- With both time zones resolved, `main` is the loop on the resolved
configuration followed by the end of the process. -/
theorem main_eq (env : Env) (a : Args) (l1 l2 : Location)
    (h1 : LoadLocation env.zoneinfo a.toTimeZone = some l1)
    (h2 : LoadLocation env.zoneinfo a.fromTimeZone = some l2) :
    main env a = finish env (convertLoop env (configOf a l1 l2) 0 a.toConvert NewWriter) := by
  unfold main parseTimeZome configOf
  by_cases ht : a.toTimeZone = []
  · simp [ht, h2]
  · simp [ht, h1, h2]

theorem convert_now (env : Env) (c : Config) (i : Nat) :
    convert env c i (str "now") = Outcome.ok (formatDate env c (env.now i)) := by
  simp [convert, parseDate]

/-- Under source layout `TIMESTAMP` a conversion ends in exactly one of two
ways, decided by the input alone. -/
theorem convert_timestamp_cases (env : Env) (c : Config) (i : Nat) (x : GoString)
    (hf : c.fromLayout = str "TIMESTAMP") :
    ((x = str "now" ∨ (ParseInt x).2 = none) ∧ ∃ l, convert env c i x = Outcome.ok l) ∨
    ((x ≠ str "now" ∧ (ParseInt x).2 ≠ none) ∧
      convert env c i x = Outcome.fatal Fatal.parsingTimestamp10) := by
  by_cases hnow : x = str "now"
  · left
    exact ⟨Or.inl hnow, _, by rw [hnow]; exact convert_now env c i⟩
  · rcases hp : ParseInt x with ⟨n, e⟩
    cases e with
    | none =>
      left
      exact ⟨Or.inr rfl, _, convert_timestamp env c i x n hf hnow hp⟩
    | some k =>
      right
      refine ⟨⟨hnow, by simp⟩, ?_⟩
      simp only [convert, parseDate, hnow, hf, if_false, if_true, hp]

theorem stop_timestamp (env : Env) (c : Config) (hf : c.fromLayout = str "TIMESTAMP")
    (inputs : List GoString) : ∀ (i k : Nat),
    (stopOf env c i inputs = Exit.fatal Fatal.parsingTimestamp10 ∧
        (linesOf env c i inputs).length = k) ↔
      ∃ pre d post, inputs = pre ++ d :: post ∧ pre.length = k ∧
        (∀ x ∈ pre, x = str "now" ∨ (ParseInt x).2 = none) ∧
        d ≠ str "now" ∧ (ParseInt d).2 ≠ none := by
  induction inputs with
  | nil =>
    intro i k
    simp [stopOf, linesOf]
  | cons x rest ih =>
    intro i k
    rcases convert_timestamp_cases env c i x hf with ⟨hgood, l, hl⟩ | ⟨hbad, hl⟩
    · have e1 : stopOf env c i (x :: rest) = stopOf env c (i + 1) rest := by
        simp [stopOf, hl]
      have e2 : linesOf env c i (x :: rest) = l :: linesOf env c (i + 1) rest := by
        simp [linesOf, hl]
      rw [e1, e2]
      constructor
      · rintro ⟨hs, hk⟩
        simp only [List.length_cons] at hk
        obtain ⟨pre, d, post, he, hlen, hpre, hd⟩ := (ih (i + 1) (k - 1)).mp ⟨hs, by omega⟩
        refine ⟨x :: pre, d, post, by simp [he], by simp only [List.length_cons]; omega, ?_, hd⟩
        intro y hy
        rcases List.mem_cons.mp hy with rfl | hy
        · exact hgood
        · exact hpre y hy
      · rintro ⟨pre, d, post, he, hlen, hpre, hd⟩
        cases pre with
        | nil =>
          exfalso
          simp only [List.nil_append, List.cons.injEq] at he
          obtain ⟨rfl, _⟩ := he
          rcases hgood with h | h
          · exact hd.1 h
          · exact hd.2 h
        | cons p pre =>
          simp only [List.cons_append, List.cons.injEq] at he
          obtain ⟨_, he⟩ := he
          simp only [List.length_cons] at hlen
          have := (ih (i + 1) (k - 1)).mpr ⟨pre, d, post, he, by omega,
            fun y hy => hpre y (List.mem_cons_of_mem _ hy), hd⟩
          refine ⟨this.1, ?_⟩
          simp only [List.length_cons]
          omega
    · have e1 : stopOf env c i (x :: rest) = Exit.fatal Fatal.parsingTimestamp10 := by
        simp [stopOf, hl]
      have e2 : linesOf env c i (x :: rest) = [] := by
        simp [linesOf, hl]
      rw [e1, e2]
      constructor
      · rintro ⟨_, hk⟩
        exact ⟨[], x, rest, rfl, by simpa using hk, by simp, hbad⟩
      · rintro ⟨pre, d, post, he, hlen, hpre, hd⟩
        refine ⟨rfl, ?_⟩
        cases pre with
        | nil => simpa using hlen
        | cons p pre =>
          exfalso
          simp only [List.cons_append, List.cons.injEq] at he
          obtain ⟨rfl, _⟩ := he
          rcases hpre x (List.mem_cons_self _ _) with h | h
          · exact hbad.1 h
          · exact hbad.2 h

theorem linesOf_get (env : Env) (c : Config) (inputs : List GoString) :
    ∀ (i j : Nat) (x l : GoString), inputs[j]? = some x →
      (linesOf env c i inputs)[j]? = some l → convert env c (i + j) x = Outcome.ok l := by
  induction inputs with
  | nil => intro i j x l hx; simp at hx
  | cons d rest ih =>
    intro i j x l hx hl
    unfold linesOf at hl
    cases hc : convert env c i d with
    | fatal f => simp [hc] at hl
    | panic => simp [hc] at hl
    | ok line =>
      simp only [hc] at hl
      cases j with
      | zero =>
        simp only [List.getElem?_cons_zero, Option.some.injEq] at hx hl
        subst hx hl
        simpa using hc
      | succ j =>
        simp only [List.getElem?_cons_succ] at hx hl
        have := ih (i + 1) j x l hx hl
        rw [← this]
        congr 1
        omega

theorem linesOf_all (env : Env) (c : Config) (inputs : List GoString) :
    ∀ i : Nat, (∀ (j : Nat) (x : GoString), inputs[j]? = some x →
        ∃ l, convert env c (i + j) x = Outcome.ok l) →
      stopOf env c i inputs = Exit.ok ∧ (linesOf env c i inputs).length = inputs.length := by
  induction inputs with
  | nil => intro i _; simp [stopOf, linesOf]
  | cons d rest ih =>
    intro i h
    obtain ⟨l, hl⟩ := h 0 d (by simp)
    simp only [Nat.add_zero] at hl
    have hrest := ih (i + 1) (fun j x hx => by
      have := h (j + 1) x (by simpa using hx)
      rw [show i + (j + 1) = i + 1 + j from by omega] at this
      exact this)
    simp [stopOf, linesOf, hl, hrest]

theorem finish_ok_reliable (env : Env) (hr : env.Reliable) (b : Writer) (hb : b.Ok) :
    finish env (b, Exit.ok) = ⟨b.wr ++ b.buf, Exit.ok⟩ := by
  simp [finish, Flush_reliable env hr b hb.1]

/-! ## The registry and the help text -/

theorem formats_of_not_key (s : GoString) (h : s ∉ formatsKeys) : formats s = [] := by
  have hl : formatsEntries.lookup s = none := by
    rw [List.lookup_eq_none_iff]
    intro p hp
    simp only [bne_iff_ne, ne_eq]
    intro hps
    apply h
    rw [hps]
    exact List.mem_map_of_mem Prod.fst hp
  simp [formats, hl]

theorem resolveLayout_of_entry (s v : GoString) (h : (s, v) ∈ formatsEntries) :
    resolveLayout s = v := by
  simp only [formatsEntries, List.mem_cons, Prod.mk.injEq, List.mem_singleton,
    List.not_mem_nil, or_false] at h
  rcases h with h | h | h | h | h | h | h | h | h | h | h | h | h | h | h | h | h <;>
    (obtain ⟨rfl, rfl⟩ := h; decide)

theorem sortStrings_perm_eq (ks l : List GoString) (h : ks.Perm l) :
    sortStrings ks = sortStrings l := by
  unfold sortStrings
  apply List.eq_of_perm_of_sorted (r := fun a b : GoString => a ≤ b)
  · exact ((List.perm_insertionSort _ ks).trans h).trans (List.perm_insertionSort _ l).symm
  · exact List.sorted_insertionSort _ ks
  · exact List.sorted_insertionSort _ l

theorem join_sorted_formatsKeys :
    Join (sortStrings formatsKeys) (str ", ") = str "ANSIC, Kitchen, RFC1123, RFC1123Z, RFC3339, RFC3339Nano, RFC822, RFC822Z, RFC850, RubyDate, Stamp, StampMicro, StampMilli, StampNano, TIMESTAMP, TIMESTAMPNANO, UnixDate" := by
  decide

/-! # The claims -/

/-- C1: layout name resolution.  The registry has 17 distinct keys; a
specifier that is a key resolves to the registry's value for it, any other
specifier resolves to itself; `TIMESTAMP` and `TIMESTAMPNANO` resolve to the
sentinels, `RFC3339` to its pattern, and `rfc3339` and `RFC33` are left
unchanged. -/
theorem layout_resolution :
    formatsKeys.length = 17 ∧ formatsKeys.Nodup ∧
    (∀ s v : GoString, (s, v) ∈ formatsEntries → resolveLayout s = v) ∧
    (∀ s : GoString, s ∉ formatsKeys → resolveLayout s = s) ∧
    resolveLayout (str "TIMESTAMP") = str "TIMESTAMP" ∧
    resolveLayout (str "TIMESTAMPNANO") = str "TIMESTAMPNANO" ∧
    resolveLayout (str "RFC3339") = str "2006-01-02T15:04:05Z07:00" ∧
    resolveLayout (str "rfc3339") = str "rfc3339" ∧
    resolveLayout (str "RFC33") = str "RFC33" ∧
    (∀ (env : Env) (a : Args) (l1 l2 : Location),
      LoadLocation env.zoneinfo a.toTimeZone = some l1 →
      LoadLocation env.zoneinfo a.fromTimeZone = some l2 →
      main env a = finish env (convertLoop env (configOf a l1 l2) 0 a.toConvert NewWriter) ∧
      (configOf a l1 l2).fromLayout = resolveLayout a.fromFlag ∧
      (configOf a l1 l2).toLayout = resolveLayout a.toFlag) := by
  refine ⟨by decide, by decide, resolveLayout_of_entry, ?_, by decide, by decide, by decide,
    by decide, by decide, ?_⟩
  · intro s hs
    simp [resolveLayout, formats_of_not_key s hs]
  · intro env a l1 l2 h1 h2
    exact ⟨main_eq env a l1 l2 h1 h2, rfl, rfl⟩

/-- Witness for C1 at the registry entry `Kitchen`. -/
theorem layout_resolution_witness : resolveLayout (str "Kitchen") = str "3:04PM" :=
  layout_resolution.2.2.1 (str "Kitchen") (str "3:04PM") (by decide)

/-- C2: with source and destination layout `TIMESTAMP`, for every pair of
resolved time zones, an input other than `now` that `strconv.ParseInt`
accepts with value `n` is converted to `FormatInt n`, which is the unpadded
decimal numeral of `n`; so a canonical integer numeral is reproduced
unchanged, and the numeral of every such `n` is one. -/
theorem timestamp_to_timestamp_identity (env : Env) (fromTZ : Location)
    (toTZ : Option Location) (i : Nat) (s : GoString) (n : Int)
    (hnow : s ≠ str "now") (hp : ParseInt s = (n, none)) :
    convert env ⟨str "TIMESTAMP", str "TIMESTAMP", fromTZ, toTZ⟩ i s
        = Outcome.ok (FormatInt n) ∧
      FormatInt n = decimalInt n ∧
      (IsCanonicalInt s →
        convert env ⟨str "TIMESTAMP", str "TIMESTAMP", fromTZ, toTZ⟩ i s = Outcome.ok s) ∧
      IsCanonicalInt (decimalInt n) ∧
      convert env ⟨str "TIMESTAMP", str "TIMESTAMP", fromTZ, toTZ⟩ i (decimalInt n)
        = Outcome.ok (decimalInt n) := by
  obtain ⟨h1, h2⟩ := ParseInt_range s n hp
  have hconv : convert env ⟨str "TIMESTAMP", str "TIMESTAMP", fromTZ, toTZ⟩ i s
      = Outcome.ok (FormatInt n) := by
    rw [convert_timestamp env _ i s n rfl hnow hp, formatDate_timestamp env _ _ rfl,
      Unix_Unix n h1 h2]
  have hpd : ParseInt (decimalInt n) = (n, none) := by
    rw [← FormatInt_eq_decimalInt n h1 h2]
    exact ParseInt_FormatInt n h1 h2
  have hnd : decimalInt n ≠ str "now" := by
    intro h
    rw [h, ParseInt_now] at hpd
    simp at hpd
  refine ⟨hconv, FormatInt_eq_decimalInt n h1 h2, ?_, decimalInt_canonical n, ?_⟩
  · intro hc
    rw [hconv, FormatInt_eq_decimalInt n h1 h2, canonical_decimalInt s n hc hp]
  · rw [convert_timestamp env _ i (decimalInt n) n rfl hnd hpd, formatDate_timestamp env _ _ rfl,
      Unix_Unix n h1 h2, FormatInt_eq_decimalInt n h1 h2]

/-- Witness for C2 at the input `-1609459200`. -/
theorem timestamp_to_timestamp_identity_witness :
    convert plainEnv
      ⟨str "TIMESTAMP", str "TIMESTAMP", Location.UTC, some Location.Local⟩ 0
      (str "-1609459200") = Outcome.ok (str "-1609459200") :=
  (timestamp_to_timestamp_identity plainEnv Location.UTC (some Location.Local) 0
    (str "-1609459200") (-1609459200) (by decide) (by decide)).2.2.1 (by decide)

/-- C3: with source and destination layout `TIMESTAMPNANO`, an input of at
least 10 decimal digits with no leading zero whose value fits in a signed
64-bit integer is converted to itself. -/
theorem timestampnano_round_trip (env : Env) (fromTZ : Location)
    (toTZ : Option Location) (i : Nat) (s : GoString) (hlen : 10 ≤ s.length)
    (hd : IsDigits s) (hhead : s.head? ≠ some 48)
    (hfit : digitsValue s < 2 ^ 63) :
    convert env ⟨str "TIMESTAMPNANO", str "TIMESTAMPNANO", fromTZ, toTZ⟩ i s
      = Outcome.ok s := by
  have hnow : s ≠ str "now" := by
    intro h
    rw [h] at hlen
    revert hlen
    decide
  have hsplit : s.take (s.length - 9) ++ s.drop (s.length - 9) = s := List.take_append_drop _ _
  have hdt : IsDigits (s.take (s.length - 9)) := fun c hc => hd c (List.mem_of_mem_take hc)
  have hdd : IsDigits (s.drop (s.length - 9)) := fun c hc => hd c (List.mem_of_mem_drop hc)
  have hlt : (s.take (s.length - 9)).length = s.length - 9 := by
    rw [List.length_take]; omega
  have hld : (s.drop (s.length - 9)).length = 9 := by
    rw [List.length_drop]; omega
  have hnet : s.take (s.length - 9) ≠ [] := by
    intro h; rw [h] at hlt; simp at hlt; omega
  have hned : s.drop (s.length - 9) ≠ [] := by
    intro h; rw [h] at hld; simp at hld
  have hval : digitsValue s = digitsValue (s.take (s.length - 9)) * 1000000000
      + digitsValue (s.drop (s.length - 9)) := by
    conv_lhs => rw [← hsplit]
    rw [digitsValue_append, hld]
    norm_num
  have hfit2 : digitsValue s < 9223372036854775808 := by norm_num at hfit; exact hfit
  have hdl := digitsValue_lt _ hdd
  rw [hld] at hdl
  have hsec := ParseInt_digits _ hnet hdt (by norm_num; omega)
  have hn := ParseInt_digits _ hned hdd (by norm_num; omega)
  obtain ⟨hconv, _, _⟩ := convert_timestampnano env
    ⟨str "TIMESTAMPNANO", str "TIMESTAMPNANO", fromTZ, toTZ⟩ i s _ _ rfl hnow (by omega) hsec hn
  rw [hconv, formatDate_timestampnano env _ _ rfl,
    Unix_UnixNano _ _ (by omega) (by omega) (by omega) (by omega),
    FormatInt_eq_decimalInt _ (by omega) (by omega)]
  have hne : s ≠ [] := by
    intro h; rw [h] at hlen; simp at hlen
  have hh : s.head hne ≠ 48 := by
    intro h
    apply hhead
    rw [List.head?_eq_head hne, h]
  have hdec := decimal_digitsValue s hd hne hh
  have hnn : ¬ (((digitsValue (s.take (s.length - 9)) : Int) * 1000000000
      + (digitsValue (s.drop (s.length - 9)) : Int)) < 0) := by omega
  have habs : ((digitsValue (s.take (s.length - 9)) : Int) * 1000000000
      + (digitsValue (s.drop (s.length - 9)) : Int)).natAbs = digitsValue s := by omega
  simp only [decimalInt, hnn, if_false, habs, hdec]

/-- Witness for C3 at the input `1609459200123456789`. -/
theorem timestampnano_round_trip_witness :
    convert plainEnv
      ⟨str "TIMESTAMPNANO", str "TIMESTAMPNANO", Location.UTC, some Location.Local⟩ 0
      (str "1609459200123456789") = Outcome.ok (str "1609459200123456789") :=
  timestampnano_round_trip plainEnv Location.UTC (some Location.Local) 0
    (str "1609459200123456789") (by decide) (by decide) (by decide) (by decide)

/-- C4: with destination layout `TIMESTAMPNANO` the output is the total
number of nanoseconds as one unpadded decimal numeral.  For an input `s`
other than `now` under source layout `TIMESTAMPNANO`, whose leading part is
parsed as `sec` and whose trailing 9 bytes are parsed as `n`, with
`sec * 10^9 + n` in the range of `int64`, the output is the numeral of
`sec * 10^9 + n`; for an input `s2` under source layout `TIMESTAMP` parsed
as `m`, with `m * 10^9` in the range of `int64`, it is the numeral of
`m * 10^9`. -/
theorem timestampnano_formats_total (env : Env) (fromTZ : Location)
    (toTZ : Option Location) (i : Nat) (s : GoString) (sec n : Int)
    (s2 : GoString) (m : Int)
    (hnow : s ≠ str "now") (hlen : 9 ≤ s.length)
    (hsec : ParseInt (s.take (s.length - 9)) = (sec, none))
    (hn : ParseInt (s.drop (s.length - 9)) = (n, none))
    (hlo : -(2 ^ 63 : Int) ≤ sec * 10 ^ 9 + n) (hhi : sec * 10 ^ 9 + n < (2 ^ 63 : Int))
    (hnow2 : s2 ≠ str "now") (hm : ParseInt s2 = (m, none))
    (hlo2 : -(2 ^ 63 : Int) ≤ m * 10 ^ 9) (hhi2 : m * 10 ^ 9 < (2 ^ 63 : Int)) :
    (convert env ⟨str "TIMESTAMPNANO", str "TIMESTAMPNANO", fromTZ, toTZ⟩ i s
        = Outcome.ok (FormatInt (sec * 10 ^ 9 + n)) ∧
      FormatInt (sec * 10 ^ 9 + n) = decimalInt (sec * 10 ^ 9 + n)) ∧
    (convert env ⟨str "TIMESTAMP", str "TIMESTAMPNANO", fromTZ, toTZ⟩ i s2
        = Outcome.ok (FormatInt (m * 10 ^ 9)) ∧
      FormatInt (m * 10 ^ 9) = decimalInt (m * 10 ^ 9)) := by
  norm_num at hlo hhi hlo2 hhi2
  have e9 : (10 : Int) ^ 9 = 1000000000 := by norm_num
  rw [e9]
  obtain ⟨hconv, hn1, hn2⟩ := convert_timestampnano env
    ⟨str "TIMESTAMPNANO", str "TIMESTAMPNANO", fromTZ, toTZ⟩ i s sec n rfl hnow hlen hsec hn
  refine ⟨⟨?_, FormatInt_eq_decimalInt _ hlo hhi⟩, ?_, FormatInt_eq_decimalInt _ hlo2 hhi2⟩
  · rw [hconv, formatDate_timestampnano env _ _ rfl, Unix_UnixNano sec n hn1 hn2 hlo hhi]
  · rw [convert_timestamp env _ i s2 m rfl hnow2 hm, formatDate_timestampnano env _ _ rfl]
    have := Unix_UnixNano m 0 (by norm_num) (by norm_num) (by omega) (by omega)
    rw [this]
    norm_num

/-- Witness for C4: the input `5-00000001` (5 seconds, -1 nanoseconds) gives
`4999999999`, not `5` followed by `-1`, and the `TIMESTAMP` input `7` gives
`7000000000`. -/
theorem timestampnano_formats_total_witness :
    convert plainEnv ⟨str "TIMESTAMPNANO", str "TIMESTAMPNANO", Location.UTC, none⟩ 0
      (str "5-00000001") = Outcome.ok (str "4999999999") ∧
    convert plainEnv ⟨str "TIMESTAMP", str "TIMESTAMPNANO", Location.UTC, none⟩ 0
      (str "7") = Outcome.ok (str "7000000000") :=
  ⟨(timestampnano_formats_total plainEnv Location.UTC none 0 (str "5-00000001") 5 (-1)
      (str "7") 7 (by decide) (by decide) (by decide) (by decide) (by decide) (by decide)
      (by decide) (by decide) (by decide) (by decide)).1.1.trans (by decide),
   (timestampnano_formats_total plainEnv Location.UTC none 0 (str "5-00000001") 5 (-1)
      (str "7") 7 (by decide) (by decide) (by decide) (by decide) (by decide) (by decide)
      (by decide) (by decide) (by decide) (by decide)).2.1.trans (by decide)⟩

/-- C5: with source layout `TIMESTAMP` and a standard output that accepts
every write, the loop aborts with the parse error at input number `k`
(after producing `k` lines) if and only if input `k` is the first input that
is not `now` and that `strconv.ParseInt` rejects; what has been written is
then the text of the lines of the inputs before it, so no line is emitted
for that input or a later one; and `now` never causes an abort, whatever
the layouts. -/
theorem parse_failure_aborts (env : Env) (hr : env.Reliable) (c : Config)
    (hf : c.fromLayout = str "TIMESTAMP") (inputs : List GoString) (k : Nat) :
    (((convertLoop env c 0 inputs NewWriter).2 = Exit.fatal Fatal.parsingTimestamp10 ∧
        (linesOf env c 0 inputs).length = k) ↔
      ∃ pre d post, inputs = pre ++ d :: post ∧ pre.length = k ∧
        (∀ x ∈ pre, x = str "now" ∨ (ParseInt x).2 = none) ∧
        d ≠ str "now" ∧ (ParseInt d).2 ≠ none) ∧
    (convertLoop env c 0 inputs NewWriter).1.wr ++ (convertLoop env c 0 inputs NewWriter).1.buf
      = outputText (linesOf env c 0 inputs) ∧
    (∀ (j : Nat) (x l : GoString), inputs[j]? = some x →
      (linesOf env c 0 inputs)[j]? = some l → convert env c j x = Outcome.ok l) ∧
    (∀ (x : GoString) (j : Nat), (∃ f, convert env c j x = Outcome.fatal f) ↔
      (x ≠ str "now" ∧ (ParseInt x).2 ≠ none)) ∧
    (∀ (x : GoString) (j : Nat), convert env c j x ≠ Outcome.panic) ∧
    (∀ (c2 : Config) (j : Nat), ∃ l, convert env c2 j (str "now") = Outcome.ok l) := by
  obtain ⟨h1, _, h3, _⟩ := convertLoop_reliable env hr c inputs 0 NewWriter NewWriter_ok
  refine ⟨?_, ?_, ?_, ?_, ?_, ?_⟩
  · rw [h1]
    exact stop_timestamp env c hf inputs 0 k
  · rw [h3]
    simp [NewWriter]
  · intro j x l hx hl
    have := linesOf_get env c inputs 0 j x l hx hl
    simpa using this
  · intro x j
    rcases convert_timestamp_cases env c j x hf with ⟨hgood, l, hl⟩ | ⟨hbad, hl⟩
    · constructor
      · rintro ⟨f, hfat⟩
        rw [hl] at hfat
        cases hfat
      · rintro ⟨hn, hp⟩
        rcases hgood with h | h
        · exact absurd h hn
        · exact absurd h hp
    · exact ⟨fun _ => hbad, fun _ => ⟨_, hl⟩⟩
  · intro x j
    rcases convert_timestamp_cases env c j x hf with ⟨_, l, hl⟩ | ⟨_, hl⟩ <;>
      (rw [hl]; intro h; cases h)
  · intro c2 j
    exact ⟨_, convert_now env c2 j⟩

/-- Witness for C5: of the inputs `0`, `now`, `x`, `1` the loop converts the
first two and aborts at `x`. -/
theorem parse_failure_aborts_witness :
    (convertLoop plainEnv ⟨str "TIMESTAMP", str "TIMESTAMP", Location.UTC, none⟩ 0
        [str "0", str "now", str "x", str "1"] NewWriter).2
      = Exit.fatal Fatal.parsingTimestamp10 ∧
    (linesOf plainEnv ⟨str "TIMESTAMP", str "TIMESTAMP", Location.UTC, none⟩ 0
        [str "0", str "now", str "x", str "1"]).length = 2 :=
  (parse_failure_aborts plainEnv plainEnv_reliable
    ⟨str "TIMESTAMP", str "TIMESTAMP", Location.UTC, none⟩ rfl
    [str "0", str "now", str "x", str "1"] 2).1.mpr
    ⟨[str "0", str "now"], str "x", [str "1"], rfl, rfl, by decide, by decide, by decide⟩

/-- C6: when both time zones resolve, standard output accepts every write
and every one of the (at least one) inputs converts, the process ends
normally and standard output holds exactly the formatted conversions in
input order, each followed by one newline, as many as there are inputs; and
the conversion of an input other than `now` does not depend on its position,
on the clock, on standard output or on the time zone database. -/
theorem output_one_line_per_input (env : Env) (hr : env.Reliable) (a : Args)
    (l1 l2 : Location) (h1 : LoadLocation env.zoneinfo a.toTimeZone = some l1)
    (h2 : LoadLocation env.zoneinfo a.fromTimeZone = some l2)
    (hne : a.toConvert ≠ [])
    (hall : ∀ (j : Nat) (x : GoString), a.toConvert[j]? = some x →
      ∃ l, convert env (configOf a l1 l2) j x = Outcome.ok l) :
    main env a = ⟨outputText (linesOf env (configOf a l1 l2) 0 a.toConvert), Exit.ok⟩ ∧
    (linesOf env (configOf a l1 l2) 0 a.toConvert).length = a.toConvert.length ∧
    linesOf env (configOf a l1 l2) 0 a.toConvert ≠ [] ∧
    (∀ (j : Nat) (x l : GoString), a.toConvert[j]? = some x →
      (linesOf env (configOf a l1 l2) 0 a.toConvert)[j]? = some l →
      convert env (configOf a l1 l2) j x = Outcome.ok l) ∧
    (∀ (env2 : Env) (c : Config) (j j2 : Nat) (x : GoString), x ≠ str "now" →
      env2.ParseInLocation = env.ParseInLocation → env2.Format = env.Format →
      convert env2 c j2 x = convert env c j x) := by
  obtain ⟨hs, hlen⟩ := linesOf_all env (configOf a l1 l2) a.toConvert 0
    (fun j x hx => by rw [Nat.zero_add]; exact hall j x hx)
  obtain ⟨e1, e2, e3, _⟩ := convertLoop_reliable env hr (configOf a l1 l2) a.toConvert 0
    NewWriter NewWriter_ok
  refine ⟨?_, hlen, ?_, ?_, ?_⟩
  · rw [main_eq env a l1 l2 h1 h2]
    rw [hs] at e1
    have hfin := finish_ok_reliable env hr _ e2
    rw [← e1] at hfin
    rw [hfin, e3, e1]
    simp [NewWriter]
  · intro h
    rw [h] at hlen
    exact hne (List.length_eq_zero.mp hlen.symm)
  · intro j x l hx hl
    have := linesOf_get env _ a.toConvert 0 j x l hx hl
    rw [Nat.zero_add] at this
    exact this
  · intro env2 c j j2 x hx hp hfmt
    simp only [convert, parseDate, formatDate, hx, if_false, hp, hfmt]

/-- Witness for C6: the inputs `0` and `17` give the two lines `0` and
`17`. -/
theorem output_one_line_per_input_witness :
    main plainEnv ⟨str "TIMESTAMP", str "TIMESTAMP", str "UTC", str "UTC", [str "0", str "17"]⟩
      = ⟨str "0\n17\n", Exit.ok⟩ :=
  (output_one_line_per_input plainEnv plainEnv_reliable
    ⟨str "TIMESTAMP", str "TIMESTAMP", str "UTC", str "UTC", [str "0", str "17"]⟩
    Location.UTC Location.UTC (by decide) (by decide) (by decide)
    (by
      intro j x hx
      match j, hx with
      | 0, hx => exact ⟨str "0", by simp at hx; subst hx; decide⟩
      | 1, hx => exact ⟨str "17", by simp at hx; subst hx; decide⟩
      | j + 2, hx => simp at hx)).1.trans (by decide)

/-- C7 fails on the program: with the inputs `0` and `x` the first input
converts to `0`, the second causes the fatal parse error, and the process
exits with nothing on standard output, so the line `0` is not there.  The
deferred `lineWriter.Flush()` is skipped by `log.Fatalf`; the two other ways
out of `main` run it: with the input `0` alone the line is written, and with
the source layout `TIMESTAMPNANO` and the inputs `1609459200123456789` and
`17` (a panic at the second) the line of the first is written. -/
theorem partial_output_not_flushed :
    convert plainEnv ⟨str "TIMESTAMP", str "TIMESTAMP", Location.UTC, some Location.UTC⟩ 0
        (str "0") = Outcome.ok (str "0") ∧
    convert plainEnv ⟨str "TIMESTAMP", str "TIMESTAMP", Location.UTC, some Location.UTC⟩ 1
        (str "x") = Outcome.fatal Fatal.parsingTimestamp10 ∧
    main plainEnv ⟨str "TIMESTAMP", str "TIMESTAMP", str "UTC", str "UTC", [str "0", str "x"]⟩
      = ⟨[], Exit.fatal Fatal.parsingTimestamp10⟩ ∧
    ¬ (str "0\n" <+: (main plainEnv
      ⟨str "TIMESTAMP", str "TIMESTAMP", str "UTC", str "UTC", [str "0", str "x"]⟩).stdout) ∧
    main plainEnv ⟨str "TIMESTAMP", str "TIMESTAMP", str "UTC", str "UTC", [str "0"]⟩
      = ⟨str "0\n", Exit.ok⟩ ∧
    main plainEnv ⟨str "TIMESTAMPNANO", str "TIMESTAMP", str "UTC", str "UTC",
        [str "1609459200123456789", str "17"]⟩
      = ⟨str "1609459200\n", Exit.panic⟩ := by
  decide

/-- C10: under source layout `TIMESTAMPNANO`, for an input other than `now`.
With at least 9 bytes both slice expressions are in range, the nanosecond
part is the last 9 bytes, the seconds part followed by it is the input, and
the program parses exactly these: when the leading part parses as `sec` and
the last 9 bytes as `n` the instant is `time.Unix(sec, n)`, when either does
not parse the run ends in the fatal parse error, and it never panics.  With
fewer than 9 bytes the first slice expression is out of range: the
conversion panics and the loop stops there with the writer untouched, so no
line is produced for that input. -/
theorem timestampnano_split_in_range (env : Env) (c : Config) (i : Nat) (s : GoString)
    (rest : List GoString) (b : Writer)
    (hf : c.fromLayout = str "TIMESTAMPNANO") (hnow : s ≠ str "now") :
    (9 ≤ s.length →
      slice s ((s.length : Int) - 9) s.length = some (s.drop (s.length - 9)) ∧
      slice s 0 ((s.length : Int) - 9) = some (s.take (s.length - 9)) ∧
      (s.drop (s.length - 9)).length = 9 ∧
      s.drop (s.length - 9) <:+ s ∧
      s.take (s.length - 9) ++ s.drop (s.length - 9) = s ∧
      convert env c i s ≠ Outcome.panic ∧
      (∀ sec n : Int, ParseInt (s.take (s.length - 9)) = (sec, none) →
        ParseInt (s.drop (s.length - 9)) = (n, none) →
        parseDate env c i s = Outcome.ok (Unix sec n) ∧
        convert env c i s = Outcome.ok (formatDate env c (Unix sec n))) ∧
      ((ParseInt (s.drop (s.length - 9))).2 ≠ none ∨
          (ParseInt (s.take (s.length - 9))).2 ≠ none →
        parseDate env c i s = Outcome.fatal Fatal.parsingTimestamp19 ∧
        convert env c i s = Outcome.fatal Fatal.parsingTimestamp19)) ∧
    (s.length < 9 →
      slice s ((s.length : Int) - 9) s.length = none ∧
      parseDate env c i s = Outcome.panic ∧
      convert env c i s = Outcome.panic ∧
      convertLoop env c i (s :: rest) b = (b, Exit.panic) ∧
      linesOf env c i (s :: rest) = []) := by
  have hne : str "TIMESTAMPNANO" ≠ str "TIMESTAMP" := by decide
  refine ⟨?_, ?_⟩
  · intro hlen
    have hpd : parseDate env c i s =
        (match ParseInt (s.drop (s.length - 9)) with
          | (_, some _) => Outcome.fatal Fatal.parsingTimestamp19
          | (nanos, none) =>
            match ParseInt (s.take (s.length - 9)) with
            | (_, some _) => Outcome.fatal Fatal.parsingTimestamp19
            | (seconds, none) => Outcome.ok (Unix seconds nanos)) := by
      simp only [parseDate, hnow, hf, hne, if_false, if_true, slice_nanos s hlen,
        slice_seconds s hlen]
    refine ⟨slice_nanos s hlen, slice_seconds s hlen, by rw [List.length_drop]; omega,
      List.drop_suffix _ _, List.take_append_drop _ _, ?_, ?_, ?_⟩
    · simp only [convert, hpd]
      rcases ParseInt (s.drop (s.length - 9)) with ⟨n, _ | e⟩
      · rcases ParseInt (s.take (s.length - 9)) with ⟨m, _ | e2⟩ <;> simp
      · simp
    · intro sec n hsec hn
      have hp : parseDate env c i s = Outcome.ok (Unix sec n) := by
        rw [hpd, hn, hsec]
      exact ⟨hp, by simp only [convert, hp]⟩
    · intro hbad
      have hp : parseDate env c i s = Outcome.fatal Fatal.parsingTimestamp19 := by
        rw [hpd]
        rcases hlo : ParseInt (s.drop (s.length - 9)) with ⟨n, _ | e⟩
        · rcases hhi : ParseInt (s.take (s.length - 9)) with ⟨m, _ | e2⟩
          · rw [hlo, hhi] at hbad
            simp at hbad
          · rfl
        · rfl
      exact ⟨hp, by simp only [convert, hp]⟩
  · intro hlen
    have hpd : parseDate env c i s = Outcome.panic := by
      simp only [parseDate, hnow, hf, hne, if_false, if_true, slice_short s hlen]
    have hp : convert env c i s = Outcome.panic := by
      simp only [convert, hpd]
    refine ⟨slice_short s hlen, hpd, hp, ?_, ?_⟩
    · simp [convertLoop, hp]
    · simp [linesOf, hp]

/-- Witness for C10: the 8-byte input `12345678` makes the loop panic with
nothing written, and of `1609459200123456789` the program takes the last 9
bytes as nanoseconds and the bytes before them as seconds. -/
theorem timestampnano_split_in_range_witness :
    convertLoop plainEnv ⟨str "TIMESTAMPNANO", str "TIMESTAMP", Location.UTC, none⟩ 0
        [str "12345678", str "1609459200123456789"] NewWriter = (NewWriter, Exit.panic) ∧
    parseDate plainEnv ⟨str "TIMESTAMPNANO", str "TIMESTAMP", Location.UTC, none⟩ 0
        (str "1609459200123456789") = Outcome.ok (Unix 1609459200 123456789) ∧
    parseDate plainEnv ⟨str "TIMESTAMPNANO", str "TIMESTAMP", Location.UTC, none⟩ 0
        (str "1609459200123456789") ≠ Outcome.ok (Unix 123456789 160945920) :=
  ⟨((timestampnano_split_in_range plainEnv
      ⟨str "TIMESTAMPNANO", str "TIMESTAMP", Location.UTC, none⟩ 0 (str "12345678")
      [str "1609459200123456789"] NewWriter rfl (by decide)).2 (by decide)).2.2.2.1,
   (((timestampnano_split_in_range plainEnv
      ⟨str "TIMESTAMPNANO", str "TIMESTAMP", Location.UTC, none⟩ 0
      (str "1609459200123456789") [] NewWriter rfl (by decide)).1 (by decide)).2.2.2.2.2.2.1
      1609459200 123456789 (by decide) (by decide)).1,
   by decide⟩

/-- C9: whatever the order in which the keys of the registry are visited,
sorting them and joining them with `, ` gives the list of names below, and
the help text ends with it. -/
theorem help_lists_sorted_names (ks : List GoString) (h : ks.Perm formatsKeys) :
    Join (sortStrings ks) (str ", ") = str "ANSIC, Kitchen, RFC1123, RFC1123Z, RFC3339, RFC3339Nano, RFC822, RFC822Z, RFC850, RubyDate, Stamp, StampMicro, StampMilli, StampNano, TIMESTAMP, TIMESTAMPNANO, UnixDate" ∧
    helpText ks = helpPrefix ++ str "ANSIC, Kitchen, RFC1123, RFC1123Z, RFC3339, RFC3339Nano, RFC822, RFC822Z, RFC850, RubyDate, Stamp, StampMicro, StampMilli, StampNano, TIMESTAMP, TIMESTAMPNANO, UnixDate" ∧
    List.Sorted (fun a b : GoString => a < b) (sortStrings ks) := by
  have e := sortStrings_perm_eq ks formatsKeys h
  refine ⟨by rw [e]; exact join_sorted_formatsKeys, ?_, ?_⟩
  · unfold helpText
    rw [e, join_sorted_formatsKeys]
  · rw [e]
    decide

/-- Witness for C9 at the source order of the keys. -/
theorem help_lists_sorted_names_witness :
    helpText formatsKeys = helpPrefix ++ str "ANSIC, Kitchen, RFC1123, RFC1123Z, RFC3339, RFC3339Nano, RFC822, RFC822Z, RFC850, RubyDate, Stamp, StampMicro, StampMilli, StampNano, TIMESTAMP, TIMESTAMPNANO, UnixDate" :=
  (help_lists_sorted_names formatsKeys (List.Perm.refl _)).2.1

end TT
